import Mathlib

/-!
Verification of the xswl-signals signal/slot library
(`src/include/xswl/signals.hpp`) against its specification.

The C++ core is embedded shallowly:

* a slot record (`detail::slot<Args...>`) becomes the structure `Slot`;
  its atomic flags become plain `Bool` fields (the embedding is the
  sequential interleaving semantics: every critical section / atomic
  operation is one atomic Lean state transformation);
* the shared signal state (`detail::signal_impl`) becomes `SigState`:
  a total store of slot records indexed by `Nat` identities (modelling
  the `shared_ptr<slot>` heap), the `slots_` list of identities, the
  `tags_` registry and the `dirty_` flag;
* `weak_ptr<void> tracked` becomes `Option Nat` (`none` = the weak
  pointer was never set); expiry of a tracked object is decided by an
  environment `alive : Nat → Bool`;
* slot callbacks are type-erased into a small effect language `Action`
  (do nothing / throw / disconnect a connection / disconnect_all),
  given per slot id by an environment `act : Nat → Action` — this is
  exactly the state a callback can touch through the public API;
* `std::stable_sort` with comparator `a->priority > b->priority` is
  modelled by `List.insertionSort` with the non-strict relation
  `(store b).priority ≤ (store a).priority`: both are stable sorts by
  descending priority, and a stable sort is a unique function of the
  comparator and the input list;
* a `signal_t` is `Option SigState` (`none` = moved-from, `impl_` null).

An emission records a trace: the list of `(slot id, slot record as seen
at the moment the callback is invoked)` pairs, in invocation order.
-/

namespace XswlSignals

/-- One registered callback's record (`detail::slot` in `signals.hpp`):
priority, the three liveness flags, the single-shot flag and the
optional tracked weak reference (`none` = never set). -/
structure Slot where
  priority : Int
  blocked : Bool
  pending_removal : Bool
  executed : Bool
  single_shot : Bool
  tracked : Option Nat
deriving DecidableEq, Repr

/-- `slot::has_tracked_object`: whether `tracked` was ever set
(distinguishes a default-constructed `weak_ptr`). -/
def Slot.has_tracked_object (s : Slot) : Bool :=
  s.tracked.isSome

/-- `tracked.expired()` under liveness environment `alive`; a
default-constructed `weak_ptr` is expired. -/
def Slot.tracked_expired (alive : Nat → Bool) (s : Slot) : Bool :=
  match s.tracked with
  | none => true
  | some o => !(alive o)

/-- `slot::is_callable`: false if blocked, pending removal, or the
tracked reference was ever set and is now expired. -/
def Slot.is_callable (alive : Nat → Bool) (s : Slot) : Bool :=
  if s.blocked then false
  else if s.pending_removal then false
  else if s.has_tracked_object && s.tracked_expired alive then false
  else true

/-- `slot::try_acquire_execution`: non-single-shot slots always win with
no state change; single-shot slots CAS `executed` from `false` to
`true` and report whether this call won. Returns (won, updated slot). -/
def Slot.try_acquire_execution (s : Slot) : Bool × Slot :=
  if !s.single_shot then (true, s)
  else if s.executed then (false, s)
  else (true, {s with executed := true})

/-- The shared signal state (`detail::signal_impl`): a heap of slot
records, the slot list (by id), the tag registry (id, name) and the
dirty flag. -/
structure SigState where
  store : Nat → Slot
  slots : List Nat
  tags : List (Nat × String)
  dirty : Bool

/-- Point update of one slot record in the heap (a write through the
`shared_ptr` to that record). -/
def SigState.updateSlot (st : SigState) (i : Nat) (f : Slot → Slot) : SigState :=
  {st with store := fun j => if j = i then f (st.store j) else st.store j}

/-- `s->pending_removal.store(true)`: flag one slot record for
removal. -/
def SigState.markPending (st : SigState) (i : Nat) : SigState :=
  st.updateSlot i (fun s => {s with pending_removal := true})

/-- `signal_impl::disconnect_slot`: mark the record pending-removal and
set the dirty flag. -/
def SigState.disconnect_slot (st : SigState) (i : Nat) : SigState :=
  {st.markPending i with dirty := true}

/-- `signal_impl::cleanup_slots_locked`: erase the list entries whose
record is flagged pending-removal (`std::remove_if` + `erase`). -/
def SigState.cleanup_slots_locked (st : SigState) : SigState :=
  {st with slots := st.slots.filter (fun i => !(st.store i).pending_removal)}

/-- The comparison used by the emission sort, as a relation on slot ids:
`a` may precede `b` when `a`'s priority is at least `b`'s. This is the
non-strict form of the C++ comparator `a->priority > b->priority`;
`std::stable_sort` with that strict comparator is the stable sort
w.r.t. this total preorder. -/
def prioGE (store : Nat → Slot) (a b : Nat) : Prop :=
  (store b).priority ≤ (store a).priority

instance (store : Nat → Slot) : DecidableRel (prioGE store) := fun a b =>
  inferInstanceAs (Decidable ((store b).priority ≤ (store a).priority))

instance (store : Nat → Slot) : IsTotal Nat (prioGE store) :=
  ⟨fun a b => le_total ((store b).priority) ((store a).priority)⟩

instance (store : Nat → Slot) : IsTrans Nat (prioGE store) :=
  ⟨fun _ _ _ h1 h2 => le_trans h2 h1⟩

/-- The `std::stable_sort` call of `signal_t::operator()`: stable sort
of the slot-id list by descending priority. -/
def sortSlots (store : Nat → Slot) (l : List Nat) : List Nat :=
  List.insertionSort (prioGE store) l

/-- The program invariant relating the dirty flag to the slot list:
whenever the dirty flag is clear, the slot list is already in
descending priority order. It holds for a fresh signal (empty list)
and is preserved by every operation: every mutation of the slot list
sets the dirty flag, and the only writers of `dirty_ = false` are the
emission's cleanup+sort pass (which sorts) and `disconnect_all` (which
empties the list). -/
def SortedInv (st : SigState) : Prop :=
  st.dirty = false → st.slots.Pairwise (prioGE st.store)

/-- The effect a slot callback can have on the signal, type-erasing the
stored `std::function`: do nothing, throw, call `disconnect()` on a
connection handle to slot `k`, or call `disconnect_all()` on the
signal. -/
inductive Action where
  | pure : Action
  | throwEx : Action
  | disconnectConn : Nat → Action
  | disconnectAllAct : Action
deriving DecidableEq, Repr

/-- `signal_t::disconnect_all`: mark every record currently in the list
pending-removal, clear the slot list and the tag registry, and set the
dirty flag to `false`. -/
def SigState.disconnect_all (st : SigState) : SigState :=
  { store := fun j =>
      if j ∈ st.slots then {st.store j with pending_removal := true}
      else st.store j,
    slots := [], tags := [], dirty := false }

/-- Run one callback effect; the `Bool` result is whether the callback
threw (the emission loop catches and discards it). -/
def runAction (a : Action) (st : SigState) : SigState × Bool :=
  match a with
  | .pure => (st, false)
  | .throwEx => (st, true)
  | .disconnectConn k => (st.disconnect_slot k, false)
  | .disconnectAllAct => (st.disconnect_all, false)

/-- The per-snapshot loop of `signal_t::operator()` (lines 773-811):
for each snapshot entry, in order — flag-and-skip on tracked expiry,
skip if not callable, skip if execution rights are not acquired,
flag single-shot slots pending-removal before invoking, invoke the
callback and catch anything it throws. Returns (final state,
need_cleanup flag, invocation trace). A trace entry is the slot id
paired with its record as it stands when the callback is entered. -/
def emitLoop (alive : Nat → Bool) (act : Nat → Action) :
    List Nat → SigState → Bool → SigState × Bool × List (Nat × Slot)
  | [], st, need => (st, need, [])
  | i :: rest, st, need =>
    let s := st.store i
    if s.has_tracked_object && s.tracked_expired alive then
      emitLoop alive act rest (st.markPending i) true
    else if !(s.is_callable alive) then
      emitLoop alive act rest st need
    else
      let acq := s.try_acquire_execution
      if !acq.1 then
        emitLoop alive act rest st need
      else
        let st1 := st.updateSlot i (fun _ => acq.2)
        let st2 := if acq.2.single_shot then st1.markPending i else st1
        let need2 := if acq.2.single_shot then true else need
        let st3 := (runAction (act i) st2).1
        let out := emitLoop alive act rest st3 need2
        (out.1, out.2.1, (i, st2.store i) :: out.2.2)

/-- The under-lock prologue of `signal_t::operator()` (lines 759-767):
if dirty, run `cleanup_slots_locked`, then `std::stable_sort` by
descending priority, and clear the dirty flag. -/
def preState (st : SigState) : SigState :=
  if st.dirty then
    let stC := st.cleanup_slots_locked
    { stC with slots := sortSlots stC.store stC.slots, dirty := false }
  else st

/-- `signal_t::operator()` (emission): return at once on an empty list;
if dirty, cleanup + stable sort and clear dirty (`preState`); snapshot
the list; run the loop; if any slot was flagged during the loop, set
dirty. -/
def emitState (alive : Nat → Bool) (act : Nat → Action) (st : SigState) :
    SigState × List (Nat × Slot) :=
  if st.slots.isEmpty then (st, [])
  else
    let stA := preState st
    let out := emitLoop alive act stA.slots stA false
    (if out.2.1 then {out.1 with dirty := true} else out.1, out.2.2)

/-- `signal_t::connect_impl`: allocate a fresh slot record (id `i`),
append it to the list and set the dirty flag. -/
def SigState.connect_impl (st : SigState) (i : Nat) (p : Int) (ss : Bool)
    (tracked : Option Nat) : SigState :=
  { st with
    store := fun j =>
      if j = i then
        { priority := p, blocked := false, pending_removal := false,
          executed := false, single_shot := ss, tracked := tracked }
      else st.store j,
    slots := st.slots ++ [i],
    dirty := true }

/-- `signal_t::disconnect(const std::string&)`: find the first tag with
the given name; if none, return `false` with the state unchanged; else
erase it from the registry, flag every listed slot whose tracked
reference locks to that tag object, set dirty, and return `true`. -/
def SigState.disconnect_tag (st : SigState) (name : String) : SigState × Bool :=
  match st.tags.find? (fun t => t.2 == name) with
  | none => (st, false)
  | some tg =>
    ({ st with
       tags := st.tags.eraseP (fun t => t.2 == name),
       store := fun j =>
         if j ∈ st.slots && (st.store j).tracked == some tg.1 then
           {st.store j with pending_removal := true}
         else st.store j,
       dirty := true }, true)

/-- `signal_t::get_or_create_tag`: return the id of the existing tag of
that name, or register a fresh one. -/
def SigState.get_or_create_tag (st : SigState) (name : String) (fresh : Nat) :
    SigState × Nat :=
  match st.tags.find? (fun t => t.2 == name) with
  | some tg => (st, tg.1)
  | none => ({st with tags := st.tags ++ [(fresh, name)]}, fresh)

/-- `signal_t::slot_count`: number of listed slots not flagged
pending-removal. -/
def SigState.slot_count (st : SigState) : Nat :=
  (st.slots.filter (fun i => !(st.store i).pending_removal)).length

/-- A connection handle: `none` is the inert default-constructed
handle (both weak references empty); `some i` refers to slot record
`i` of a live shared state. -/
def Conn : Type := Option Nat

/-- `connection_t::is_connected` in the regime where the referenced
shared state and slot record are still alive: the inert handle answers
`false` (its weak lock fails); otherwise the record must not be
pending removal. -/
def conn_is_connected (st : SigState) (c : Option Nat) : Bool :=
  match c with
  | none => false
  | some i => !(st.store i).pending_removal

/-- `connection_t::disconnect`: a no-op on the inert handle, otherwise
`signal_impl::disconnect_slot`. -/
def conn_disconnect (st : SigState) (c : Option Nat) : SigState :=
  match c with
  | none => st
  | some i => st.disconnect_slot i

/-- `connection_t::block` / `unblock`: a no-op on the inert handle,
otherwise store into the `blocked` flag. -/
def conn_block (st : SigState) (c : Option Nat) (b : Bool) : SigState :=
  match c with
  | none => st
  | some i => st.updateSlot i (fun s => {s with blocked := b})

/-- The member-function `connect(shared_ptr<Obj>, MemFn)` overload:
an empty owner (`none`) registers nothing and returns the inert handle;
otherwise a slot tracking the owner is registered under fresh id
`fresh`. -/
def connect_shared (st : SigState) (obj : Option Nat) (fresh : Nat) (p : Int) :
    SigState × Option Nat :=
  match obj with
  | none => (st, none)
  | some o => (st.connect_impl fresh p false (some o), some fresh)

/-- The member-function `connect(Obj*, MemFn)` overload: a null pointer
(`none`) registers nothing and returns the inert handle; otherwise an
untracked slot is registered under fresh id `fresh`. -/
def connect_raw (st : SigState) (obj : Option Nat) (fresh : Nat) (p : Int) :
    SigState × Option Nat :=
  match obj with
  | none => (st, none)
  | some _ => (st.connect_impl fresh p false none, some fresh)

/-- `signal_t::valid`: whether `impl_` is non-null. -/
def sig_valid (g : Option SigState) : Bool :=
  g.isSome

/-- `signal_t::slot_count` at signal level (0 when moved-from). -/
def sig_slot_count : Option SigState → Nat
  | none => 0
  | some st => st.slot_count

/-- `signal_t::empty`. -/
def sig_empty (g : Option SigState) : Bool :=
  sig_slot_count g == 0

/-- `signal_t::operator()` at signal level: a moved-from signal returns
immediately with an empty trace. -/
def sig_emit (alive : Nat → Bool) (act : Nat → Action) :
    Option SigState → Option SigState × List (Nat × Slot)
  | none => (none, [])
  | some st =>
    let out := emitState alive act st
    (some out.1, out.2)

/-- `signal_t::disconnect_all` at signal level: a no-op when
moved-from. -/
def sig_disconnect_all : Option SigState → Option SigState
  | none => none
  | some st => some st.disconnect_all

/-- The `signal_t` move constructor: the destination takes `impl_`, the
source is left with a null `impl_`. Result: (source after the move,
destination). -/
def moveSignal (g : Option SigState) : Option SigState × Option SigState :=
  (none, g)

/-- A sequence of emissions: run `emitState` once per environment,
collecting each emission's trace. -/
def runSeq : List ((Nat → Bool) × (Nat → Action)) → SigState →
    SigState × List (List (Nat × Slot))
  | [], st => (st, [])
  | e :: rest, st =>
    let out := emitState e.1 e.2 st
    let outs := runSeq rest out.1
    (outs.1, out.2 :: outs.2)

/-- The slot ids of a trace, in invocation order. -/
def traceIds (tr : List (Nat × Slot)) : List Nat :=
  tr.map Prod.fst

/-! ### Concrete states, reachable through the public API -/

/-- The state built by the `signal_t()` constructor: empty slot list,
empty tag registry, dirty flag clear (the heap holds no meaningful
records yet). -/
def initState : SigState :=
  { store := fun _ =>
      { priority := 0, blocked := false, pending_removal := false,
        executed := false, single_shot := false, tracked := none },
    slots := [], tags := [], dirty := false }

/-- Three plain connects at priorities 0, 100, 50 in this registration
order. -/
def exampleSt : SigState :=
  ((initState.connect_impl 1 0 false none).connect_impl 2 100
    false none).connect_impl 3 50 false none

/-- One `connect_once` slot at priority 0. -/
def exampleOnce : SigState :=
  initState.connect_impl 1 0 true none

/-- A `connect_once` slot that has then been blocked through its
connection handle. -/
def exampleBlocked : SigState :=
  conn_block exampleOnce (some 1) true

/-- Two tagged connects: slot 1 under tag "a" (tag object 10), slot 2
under tag "b" (tag object 11). -/
def exampleTagged : SigState :=
  let s1 := initState.get_or_create_tag "a" 10
  let s2 := s1.1.connect_impl 1 0 false (some s1.2)
  let s3 := s2.get_or_create_tag "b" 11
  s3.1.connect_impl 2 0 false (some s3.2)

/-- Callback environments for the examples. -/
def actPure : Nat → Action := fun _ => .pure

/-- The middle-priority slot of `exampleSt` throws. -/
def actThrowMid : Nat → Action := fun k => if k = 3 then .throwEx else .pure

/-- The top-priority slot of `exampleSt` calls `disconnect_all`. -/
def actDiscAllTop : Nat → Action :=
  fun k => if k = 2 then .disconnectAllAct else .pure

/-- The slot of `exampleOnce` disconnects itself from its callback. -/
def actSelfDisc : Nat → Action :=
  fun k => if k = 1 then .disconnectConn 1 else .pure

/-- No tracked object ever expires. -/
def aliveAll : Nat → Bool := fun _ => true

/-! ### Small rewriting facts about the operations -/

theorem updateSlot_store (st : SigState) (i : Nat) (f : Slot → Slot) (j : Nat) :
    (st.updateSlot i f).store j = if j = i then f (st.store j) else st.store j :=
  rfl

theorem updateSlot_slots (st : SigState) (i : Nat) (f : Slot → Slot) :
    (st.updateSlot i f).slots = st.slots :=
  rfl

theorem updateSlot_tags (st : SigState) (i : Nat) (f : Slot → Slot) :
    (st.updateSlot i f).tags = st.tags :=
  rfl

theorem updateSlot_dirty (st : SigState) (i : Nat) (f : Slot → Slot) :
    (st.updateSlot i f).dirty = st.dirty :=
  rfl

theorem markPending_store (st : SigState) (i j : Nat) :
    (st.markPending i).store j =
      if j = i then {st.store j with pending_removal := true} else st.store j :=
  rfl

theorem markPending_slots (st : SigState) (i : Nat) :
    (st.markPending i).slots = st.slots :=
  rfl

theorem markPending_dirty (st : SigState) (i : Nat) :
    (st.markPending i).dirty = st.dirty :=
  rfl

theorem markPending_tags (st : SigState) (i : Nat) :
    (st.markPending i).tags = st.tags :=
  rfl

theorem try_acquire_of_multi {s : Slot} (h : s.single_shot = false) :
    s.try_acquire_execution = (true, s) := by
  simp [Slot.try_acquire_execution, h]

theorem try_acquire_of_win {s : Slot} (h : s.single_shot = true)
    (he : s.executed = false) :
    s.try_acquire_execution = (true, {s with executed := true}) := by
  simp [Slot.try_acquire_execution, h, he]

theorem try_acquire_of_lose {s : Slot} (h : s.single_shot = true)
    (he : s.executed = true) :
    s.try_acquire_execution = (false, s) := by
  simp [Slot.try_acquire_execution, h, he]

/-- `try_acquire_execution` either leaves the record unchanged or only
sets `executed`. -/
theorem try_acquire_snd_cases (s : Slot) :
    (s.try_acquire_execution).2 = s ∨
      (s.try_acquire_execution).2 = {s with executed := true} := by
  unfold Slot.try_acquire_execution
  split
  · exact Or.inl rfl
  · split
    · exact Or.inl rfl
    · exact Or.inr rfl

/-- A callback effect either leaves a given record unchanged or only
flags it pending-removal. -/
theorem runAction_store_cases (a : Action) (st : SigState) (i : Nat) :
    ((runAction a st).1).store i = st.store i ∨
      ((runAction a st).1).store i = {st.store i with pending_removal := true} := by
  cases a with
  | pure => exact Or.inl rfl
  | throwEx => exact Or.inl rfl
  | disconnectConn k =>
      simp only [runAction, SigState.disconnect_slot, markPending_store]
      split
      · exact Or.inr rfl
      · exact Or.inl rfl
  | disconnectAllAct =>
      simp only [runAction, SigState.disconnect_all]
      split
      · exact Or.inr rfl
      · exact Or.inl rfl

theorem runAction_pending_mono {a : Action} {st : SigState} {i : Nat}
    (h : (st.store i).pending_removal = true) :
    (((runAction a st).1).store i).pending_removal = true := by
  rcases runAction_store_cases a st i with hc | hc
  · rw [hc]; exact h
  · rw [hc]

/-- Callback effects keep a slot either in the list or flagged
pending-removal. -/
theorem runAction_inlist_or_pending {a : Action} {st : SigState} {i : Nat}
    (h : i ∈ st.slots ∨ (st.store i).pending_removal = true) :
    i ∈ ((runAction a st).1).slots ∨
      (((runAction a st).1).store i).pending_removal = true := by
  cases a with
  | pure => exact h
  | throwEx => exact h
  | disconnectConn k =>
      rcases h with h | h
      · exact Or.inl h
      · exact Or.inr (runAction_pending_mono h)
  | disconnectAllAct =>
      rcases h with h | h
      · refine Or.inr ?_
        simp [runAction, SigState.disconnect_all, h]
      · exact Or.inr (runAction_pending_mono h)

/-! ### Shape lemmas for the emission loop -/

theorem emitLoop_nil (alive : Nat → Bool) (act : Nat → Action) (st : SigState)
    (need : Bool) :
    emitLoop alive act [] st need = (st, need, []) :=
  rfl

theorem emitLoop_cons_expired (alive : Nat → Bool) (act : Nat → Action) {i : Nat}
    (rest : List Nat) (st : SigState) (need : Bool)
    (h : ((st.store i).has_tracked_object &&
      (st.store i).tracked_expired alive) = true) :
    emitLoop alive act (i :: rest) st need =
      emitLoop alive act rest (st.markPending i) true := by
  rw [emitLoop]
  simp [h]

theorem emitLoop_cons_skip (alive : Nat → Bool) (act : Nat → Action) {i : Nat}
    (rest : List Nat) (st : SigState) (need : Bool)
    (h1 : ((st.store i).has_tracked_object &&
      (st.store i).tracked_expired alive) = false)
    (h2 : (st.store i).is_callable alive = false) :
    emitLoop alive act (i :: rest) st need = emitLoop alive act rest st need := by
  rw [emitLoop]
  simp [h1, h2]

theorem emitLoop_cons_lost (alive : Nat → Bool) (act : Nat → Action) {i : Nat}
    (rest : List Nat) (st : SigState) (need : Bool)
    (h1 : ((st.store i).has_tracked_object &&
      (st.store i).tracked_expired alive) = false)
    (h2 : (st.store i).is_callable alive = true)
    (h3 : ((st.store i).try_acquire_execution).1 = false) :
    emitLoop alive act (i :: rest) st need = emitLoop alive act rest st need := by
  rw [emitLoop]
  simp [h1, h2, h3]

/-- Invocation step for a non-single-shot slot. -/
theorem emitLoop_cons_invoke_multi (alive : Nat → Bool) (act : Nat → Action)
    {i : Nat} (rest : List Nat) (st : SigState) (need : Bool)
    (h1 : ((st.store i).has_tracked_object &&
      (st.store i).tracked_expired alive) = false)
    (h2 : (st.store i).is_callable alive = true)
    (hss : (st.store i).single_shot = false) :
    emitLoop alive act (i :: rest) st need =
      (let stx := st.updateSlot i (fun _ => st.store i)
       let out := emitLoop alive act rest ((runAction (act i) stx).1) need
       (out.1, out.2.1, (i, stx.store i) :: out.2.2)) := by
  rw [emitLoop]
  simp [h1, h2, try_acquire_of_multi hss, hss]

/-- Invocation step for a single-shot slot that wins the CAS: the
record is flagged pending-removal before the callback runs, and the
trace entry shows `executed` and `pending_removal` both set. -/
theorem emitLoop_cons_invoke_single (alive : Nat → Bool) (act : Nat → Action)
    {i : Nat} (rest : List Nat) (st : SigState) (need : Bool)
    (h1 : ((st.store i).has_tracked_object &&
      (st.store i).tracked_expired alive) = false)
    (h2 : (st.store i).is_callable alive = true)
    (hss : (st.store i).single_shot = true)
    (hex : (st.store i).executed = false) :
    emitLoop alive act (i :: rest) st need =
      (let stx := (st.updateSlot i
          (fun _ => {st.store i with executed := true})).markPending i
       let out := emitLoop alive act rest ((runAction (act i) stx).1) true
       (out.1, out.2.1, (i, stx.store i) :: out.2.2)) := by
  rw [emitLoop]
  simp [h1, h2, try_acquire_of_win hss hex, hss]

/-! ### Per-step preservation helpers -/

theorem is_callable_of_pending {s : Slot} (alive : Nat → Bool)
    (h : s.pending_removal = true) : s.is_callable alive = false := by
  simp [Slot.is_callable, h]

theorem markPending_store_executed (st : SigState) (j i : Nat) :
    ((st.markPending j).store i).executed = (st.store i).executed := by
  rw [markPending_store]; split <;> rfl

theorem markPending_store_single (st : SigState) (j i : Nat) :
    ((st.markPending j).store i).single_shot = (st.store i).single_shot := by
  rw [markPending_store]; split <;> rfl

theorem markPending_store_blocked (st : SigState) (j i : Nat) :
    ((st.markPending j).store i).blocked = (st.store i).blocked := by
  rw [markPending_store]; split <;> rfl

theorem markPending_store_tracked (st : SigState) (j i : Nat) :
    ((st.markPending j).store i).tracked = (st.store i).tracked := by
  rw [markPending_store]; split <;> rfl

theorem markPending_store_pending_mono (st : SigState) {j i : Nat}
    (h : (st.store i).pending_removal = true) :
    ((st.markPending j).store i).pending_removal = true := by
  rw [markPending_store]; split
  · rfl
  · exact h

/-- Writing back the untouched record (the non-single-shot acquisition
path) does not change the heap. -/
theorem updateSlot_self_store (st : SigState) (j i : Nat) :
    (st.updateSlot j (fun _ => st.store j)).store i = st.store i := by
  rw [updateSlot_store]
  split
  · next h => rw [h]
  · rfl

/-- The single-shot invocation path only rewrites the invoked record. -/
theorem invoke_single_store_ne (st : SigState) (s' : Slot) {j i : Nat}
    (h : i ≠ j) :
    (((st.updateSlot j (fun _ => s')).markPending j).store i) = st.store i := by
  rw [markPending_store, updateSlot_store]
  simp [h]

theorem runAction_store_executed (a : Action) (st : SigState) (i : Nat) :
    (((runAction a st).1).store i).executed = (st.store i).executed := by
  rcases runAction_store_cases a st i with hc | hc <;> rw [hc]

theorem runAction_store_single (a : Action) (st : SigState) (i : Nat) :
    (((runAction a st).1).store i).single_shot = (st.store i).single_shot := by
  rcases runAction_store_cases a st i with hc | hc <;> rw [hc]

theorem runAction_store_blocked (a : Action) (st : SigState) (i : Nat) :
    (((runAction a st).1).store i).blocked = (st.store i).blocked := by
  rcases runAction_store_cases a st i with hc | hc <;> rw [hc]

theorem runAction_store_tracked (a : Action) (st : SigState) (i : Nat) :
    (((runAction a st).1).store i).tracked = (st.store i).tracked := by
  rcases runAction_store_cases a st i with hc | hc <;> rw [hc]

/-- Callbacks that only run user code (do nothing, or throw) leave the
signal state untouched. -/
theorem runAction_benign_state {a : Action} (st : SigState)
    (h : a = .pure ∨ a = .throwEx) : (runAction a st).1 = st := by
  rcases h with h | h <;> subst h <;> rfl

/-- A callback environment in which no slot touches the signal from
inside its callback. -/
def Benign (act : Nat → Action) : Prop :=
  ∀ k, act k = .pure ∨ act k = .throwEx

/-! ### Trace and flag invariants of the emission loop -/

/-- The invocation trace of the loop is a subsequence of the snapshot:
slots fire in snapshot order. -/
theorem emitLoop_trace_sublist (alive : Nat → Bool) (act : Nat → Action) :
    ∀ (snap : List Nat) (st : SigState) (need : Bool),
      List.Sublist (traceIds (emitLoop alive act snap st need).2.2) snap
  | [], _, _ => by simp [emitLoop_nil, traceIds]
  | i :: rest, st, need => by
      cases h1 : ((st.store i).has_tracked_object &&
        (st.store i).tracked_expired alive) with
      | true =>
          rw [emitLoop_cons_expired alive act rest st need h1]
          exact (emitLoop_trace_sublist alive act rest _ true).cons i
      | false =>
          cases h2 : (st.store i).is_callable alive with
          | false =>
              rw [emitLoop_cons_skip alive act rest st need h1 h2]
              exact (emitLoop_trace_sublist alive act rest st need).cons i
          | true =>
              cases h3 : ((st.store i).try_acquire_execution).1 with
              | false =>
                  rw [emitLoop_cons_lost alive act rest st need h1 h2 h3]
                  exact (emitLoop_trace_sublist alive act rest st need).cons i
              | true =>
                  cases hss : (st.store i).single_shot with
                  | false =>
                      rw [emitLoop_cons_invoke_multi alive act rest st need h1 h2 hss]
                      exact (emitLoop_trace_sublist alive act rest _ need).cons₂ i
                  | true =>
                      cases hex : (st.store i).executed with
                      | true =>
                          rw [try_acquire_of_lose hss hex] at h3
                          cases h3
                      | false =>
                          rw [emitLoop_cons_invoke_single alive act rest st need
                            h1 h2 hss hex]
                          exact (emitLoop_trace_sublist alive act rest _ true).cons₂ i

/-- Once a record is flagged pending-removal it stays flagged through
the loop and the loop never invokes it. -/
theorem emitLoop_pending (alive : Nat → Bool) (act : Nat → Action) :
    ∀ (snap : List Nat) (st : SigState) (need : Bool) (i : Nat),
      (st.store i).pending_removal = true →
      (((emitLoop alive act snap st need).1).store i).pending_removal = true ∧
        i ∉ traceIds (emitLoop alive act snap st need).2.2
  | [], _, _, _, hp => by simpa [emitLoop_nil, traceIds] using hp
  | j :: rest, st, need, i, hp => by
      cases h1 : ((st.store j).has_tracked_object &&
        (st.store j).tracked_expired alive) with
      | true =>
          rw [emitLoop_cons_expired alive act rest st need h1]
          exact emitLoop_pending alive act rest _ true i
            (markPending_store_pending_mono st hp)
      | false =>
          cases h2 : (st.store j).is_callable alive with
          | false =>
              rw [emitLoop_cons_skip alive act rest st need h1 h2]
              exact emitLoop_pending alive act rest st need i hp
          | true =>
              have hij : i ≠ j := by
                intro h
                rw [← h, is_callable_of_pending alive hp] at h2
                cases h2
              cases h3 : ((st.store j).try_acquire_execution).1 with
              | false =>
                  rw [emitLoop_cons_lost alive act rest st need h1 h2 h3]
                  exact emitLoop_pending alive act rest st need i hp
              | true =>
                  cases hss : (st.store j).single_shot with
                  | false =>
                      rw [emitLoop_cons_invoke_multi alive act rest st need h1 h2 hss]
                      have hp2 : (((runAction (act j)
                          (st.updateSlot j (fun _ => st.store j))).1).store i).pending_removal
                          = true := by
                        rcases runAction_store_cases (act j)
                            (st.updateSlot j (fun _ => st.store j)) i with hc | hc
                        · rw [hc, updateSlot_self_store]; exact hp
                        · rw [hc]
                      have ih := emitLoop_pending alive act rest _ need i hp2
                      refine ⟨ih.1, ?_⟩
                      simp only [traceIds, List.map_cons, List.mem_cons]
                      rintro (h | h)
                      · exact hij h
                      · exact ih.2 h
                  | true =>
                      cases hex : (st.store j).executed with
                      | true =>
                          rw [try_acquire_of_lose hss hex] at h3
                          cases h3
                      | false =>
                          rw [emitLoop_cons_invoke_single alive act rest st need
                            h1 h2 hss hex]
                          have hp2 : (((runAction (act j)
                              ((st.updateSlot j (fun _ => {st.store j with executed := true})).markPending
                                j)).1).store i).pending_removal = true := by
                            rcases runAction_store_cases (act j)
                                ((st.updateSlot j
                                  (fun _ => {st.store j with executed := true})).markPending j)
                                i with hc | hc
                            · rw [hc, invoke_single_store_ne st _ hij]; exact hp
                            · rw [hc]
                          have ih := emitLoop_pending alive act rest _ true i hp2
                          refine ⟨ih.1, ?_⟩
                          simp only [traceIds, List.map_cons, List.mem_cons]
                          rintro (h | h)
                          · exact hij h
                          · exact ih.2 h

/-- The loop leaves every field except `pending_removal` of a
never-invoked record unchanged. -/
theorem emitLoop_not_mem_store (alive : Nat → Bool) (act : Nat → Action) :
    ∀ (snap : List Nat) (st : SigState) (need : Bool) (i : Nat),
      i ∉ traceIds (emitLoop alive act snap st need).2.2 →
      (((emitLoop alive act snap st need).1).store i).executed
          = (st.store i).executed ∧
        (((emitLoop alive act snap st need).1).store i).single_shot
          = (st.store i).single_shot ∧
        (((emitLoop alive act snap st need).1).store i).blocked
          = (st.store i).blocked ∧
        (((emitLoop alive act snap st need).1).store i).tracked
          = (st.store i).tracked
  | [], _, _, _, _ => ⟨rfl, rfl, rfl, rfl⟩
  | j :: rest, st, need, i, hm => by
      cases h1 : ((st.store j).has_tracked_object &&
        (st.store j).tracked_expired alive) with
      | true =>
          rw [emitLoop_cons_expired alive act rest st need h1] at hm ⊢
          obtain ⟨e1, e2, e3, e4⟩ :=
            emitLoop_not_mem_store alive act rest (st.markPending j) true i hm
          exact ⟨e1.trans (markPending_store_executed st j i),
            e2.trans (markPending_store_single st j i),
            e3.trans (markPending_store_blocked st j i),
            e4.trans (markPending_store_tracked st j i)⟩
      | false =>
          cases h2 : (st.store j).is_callable alive with
          | false =>
              rw [emitLoop_cons_skip alive act rest st need h1 h2] at hm ⊢
              exact emitLoop_not_mem_store alive act rest st need i hm
          | true =>
              cases h3 : ((st.store j).try_acquire_execution).1 with
              | false =>
                  rw [emitLoop_cons_lost alive act rest st need h1 h2 h3] at hm ⊢
                  exact emitLoop_not_mem_store alive act rest st need i hm
              | true =>
                  cases hss : (st.store j).single_shot with
                  | false =>
                      rw [emitLoop_cons_invoke_multi alive act rest st need h1 h2 hss]
                        at hm ⊢
                      simp only [traceIds, List.map_cons, List.mem_cons, not_or] at hm
                      obtain ⟨e1, e2, e3, e4⟩ :=
                        emitLoop_not_mem_store alive act rest _ need i hm.2
                      refine ⟨e1.trans ?_, e2.trans ?_, e3.trans ?_, e4.trans ?_⟩
                      · rw [runAction_store_executed, updateSlot_self_store]
                      · rw [runAction_store_single, updateSlot_self_store]
                      · rw [runAction_store_blocked, updateSlot_self_store]
                      · rw [runAction_store_tracked, updateSlot_self_store]
                  | true =>
                      cases hex : (st.store j).executed with
                      | true =>
                          rw [try_acquire_of_lose hss hex] at h3
                          cases h3
                      | false =>
                          rw [emitLoop_cons_invoke_single alive act rest st need
                            h1 h2 hss hex] at hm ⊢
                          simp only [traceIds, List.map_cons, List.mem_cons, not_or]
                            at hm
                          obtain ⟨e1, e2, e3, e4⟩ :=
                            emitLoop_not_mem_store alive act rest _ true i hm.2
                          refine ⟨e1.trans ?_, e2.trans ?_, e3.trans ?_, e4.trans ?_⟩
                          · rw [runAction_store_executed,
                              invoke_single_store_ne st _ hm.1]
                          · rw [runAction_store_single,
                              invoke_single_store_ne st _ hm.1]
                          · rw [runAction_store_blocked,
                              invoke_single_store_ne st _ hm.1]
                          · rw [runAction_store_tracked,
                              invoke_single_store_ne st _ hm.1]

/-- A single-shot record whose `executed` flag is already set is never
invoked by the loop (the CAS loses). -/
theorem emitLoop_single_not_mem (alive : Nat → Bool) (act : Nat → Action) :
    ∀ (snap : List Nat) (st : SigState) (need : Bool) (i : Nat),
      (st.store i).single_shot = true → (st.store i).executed = true →
      i ∉ traceIds (emitLoop alive act snap st need).2.2
  | [], _, _, _, _, _ => by simp [emitLoop_nil, traceIds]
  | j :: rest, st, need, i, hs, he => by
      cases h1 : ((st.store j).has_tracked_object &&
        (st.store j).tracked_expired alive) with
      | true =>
          rw [emitLoop_cons_expired alive act rest st need h1]
          exact emitLoop_single_not_mem alive act rest _ true i
            ((markPending_store_single st j i).trans hs)
            ((markPending_store_executed st j i).trans he)
      | false =>
          cases h2 : (st.store j).is_callable alive with
          | false =>
              rw [emitLoop_cons_skip alive act rest st need h1 h2]
              exact emitLoop_single_not_mem alive act rest st need i hs he
          | true =>
              cases h3 : ((st.store j).try_acquire_execution).1 with
              | false =>
                  rw [emitLoop_cons_lost alive act rest st need h1 h2 h3]
                  exact emitLoop_single_not_mem alive act rest st need i hs he
              | true =>
                  cases hss : (st.store j).single_shot with
                  | false =>
                      have hij : i ≠ j := by
                        intro h; rw [← h] at hss; rw [hss] at hs; cases hs
                      rw [emitLoop_cons_invoke_multi alive act rest st need h1 h2 hss]
                      simp only [traceIds, List.map_cons, List.mem_cons, not_or]
                      refine ⟨hij, ?_⟩
                      refine emitLoop_single_not_mem alive act rest _ need i ?_ ?_
                      · rw [runAction_store_single, updateSlot_self_store]; exact hs
                      · rw [runAction_store_executed, updateSlot_self_store]; exact he
                  | true =>
                      cases hex : (st.store j).executed with
                      | true =>
                          rw [try_acquire_of_lose hss hex] at h3
                          cases h3
                      | false =>
                          have hij : i ≠ j := by
                            intro h; rw [← h] at hex; rw [hex] at he; cases he
                          rw [emitLoop_cons_invoke_single alive act rest st need
                            h1 h2 hss hex]
                          simp only [traceIds, List.map_cons, List.mem_cons, not_or]
                          refine ⟨hij, ?_⟩
                          refine emitLoop_single_not_mem alive act rest _ true i ?_ ?_
                          · rw [runAction_store_single,
                              invoke_single_store_ne st _ hij]; exact hs
                          · rw [runAction_store_executed,
                              invoke_single_store_ne st _ hij]; exact he

/-- Invoking a single-shot slot sets its `executed` flag for good. -/
theorem emitLoop_mem_executed (alive : Nat → Bool) (act : Nat → Action) :
    ∀ (snap : List Nat) (st : SigState) (need : Bool) (i : Nat),
      (st.store i).single_shot = true →
      i ∈ traceIds (emitLoop alive act snap st need).2.2 →
      (((emitLoop alive act snap st need).1).store i).executed = true
  | [], _, _, _, _, hm => by simp [emitLoop_nil, traceIds] at hm
  | j :: rest, st, need, i, hs, hm => by
      cases h1 : ((st.store j).has_tracked_object &&
        (st.store j).tracked_expired alive) with
      | true =>
          rw [emitLoop_cons_expired alive act rest st need h1] at hm ⊢
          exact emitLoop_mem_executed alive act rest _ true i
            ((markPending_store_single st j i).trans hs) hm
      | false =>
          cases h2 : (st.store j).is_callable alive with
          | false =>
              rw [emitLoop_cons_skip alive act rest st need h1 h2] at hm ⊢
              exact emitLoop_mem_executed alive act rest st need i hs hm
          | true =>
              cases h3 : ((st.store j).try_acquire_execution).1 with
              | false =>
                  rw [emitLoop_cons_lost alive act rest st need h1 h2 h3] at hm ⊢
                  exact emitLoop_mem_executed alive act rest st need i hs hm
              | true =>
                  cases hss : (st.store j).single_shot with
                  | false =>
                      have hij : i ≠ j := by
                        intro h; rw [← h] at hss; rw [hss] at hs; cases hs
                      rw [emitLoop_cons_invoke_multi alive act rest st need h1 h2 hss]
                        at hm ⊢
                      simp only [traceIds, List.map_cons, List.mem_cons] at hm
                      rcases hm with hm | hm
                      · exact absurd hm hij
                      · refine emitLoop_mem_executed alive act rest _ need i ?_ hm
                        rw [runAction_store_single, updateSlot_self_store]; exact hs
                  | true =>
                      cases hex : (st.store j).executed with
                      | true =>
                          rw [try_acquire_of_lose hss hex] at h3
                          cases h3
                      | false =>
                          rw [emitLoop_cons_invoke_single alive act rest st need
                            h1 h2 hss hex] at hm ⊢
                          by_cases hij : i = j
                          · subst hij
                            have hex2 : (((runAction (act i)
                                ((st.updateSlot i
                                  (fun _ => {st.store i with executed := true})).markPending
                                    i)).1).store i).executed = true := by
                              rw [runAction_store_executed, markPending_store_executed,
                                updateSlot_store]
                              simp
                            by_cases hm2 : i ∈ traceIds (emitLoop alive act rest
                                ((runAction (act i)
                                  ((st.updateSlot i
                                    (fun _ => {st.store i with executed := true})).markPending
                                      i)).1) true).2.2
                            · refine emitLoop_mem_executed alive act rest _ true i ?_ hm2
                              rw [runAction_store_single, markPending_store_single,
                                updateSlot_store]
                              simp [hs]
                            · exact ((emitLoop_not_mem_store alive act rest _ true i
                                hm2).1).trans hex2
                          · simp only [traceIds, List.map_cons, List.mem_cons] at hm
                            rcases hm with hm | hm
                            · exact absurd hm hij
                            · refine emitLoop_mem_executed alive act rest _ true i ?_ hm
                              rw [runAction_store_single,
                                invoke_single_store_ne st _ hij]
                              exact hs

theorem count_cons_le_of_ne {i j : Nat} {T : List Nat} (h : j ≠ i)
    (hT : T.count i ≤ 1) : (j :: T).count i ≤ 1 := by
  simpa [List.count_cons, h] using hT

theorem count_cons_self_le_one {i : Nat} {T : List Nat} (h : i ∉ T) :
    (i :: T).count i ≤ 1 := by
  simp [List.count_cons, List.count_eq_zero_of_not_mem h]

/-- Within one pass over a snapshot, a single-shot slot whose
`executed` flag starts `false` is invoked at most once. -/
theorem emitLoop_single_count (alive : Nat → Bool) (act : Nat → Action) :
    ∀ (snap : List Nat) (st : SigState) (need : Bool) (i : Nat),
      (st.store i).single_shot = true → (st.store i).executed = false →
      (traceIds (emitLoop alive act snap st need).2.2).count i ≤ 1
  | [], _, _, _, _, _ => by simp [emitLoop_nil, traceIds]
  | j :: rest, st, need, i, hs, he => by
      cases h1 : ((st.store j).has_tracked_object &&
        (st.store j).tracked_expired alive) with
      | true =>
          rw [emitLoop_cons_expired alive act rest st need h1]
          exact emitLoop_single_count alive act rest _ true i
            ((markPending_store_single st j i).trans hs)
            ((markPending_store_executed st j i).trans he)
      | false =>
          cases h2 : (st.store j).is_callable alive with
          | false =>
              rw [emitLoop_cons_skip alive act rest st need h1 h2]
              exact emitLoop_single_count alive act rest st need i hs he
          | true =>
              cases h3 : ((st.store j).try_acquire_execution).1 with
              | false =>
                  rw [emitLoop_cons_lost alive act rest st need h1 h2 h3]
                  exact emitLoop_single_count alive act rest st need i hs he
              | true =>
                  cases hss : (st.store j).single_shot with
                  | false =>
                      have hij : i ≠ j := by
                        intro h; rw [← h] at hss; rw [hss] at hs; cases hs
                      rw [emitLoop_cons_invoke_multi alive act rest st need h1 h2 hss]
                      have ih : (traceIds (emitLoop alive act rest
                          ((runAction (act j)
                            (st.updateSlot j (fun _ => st.store j))).1) need).2.2).count i
                          ≤ 1 := by
                        refine emitLoop_single_count alive act rest _ need i ?_ ?_
                        · rw [runAction_store_single, updateSlot_self_store]; exact hs
                        · rw [runAction_store_executed, updateSlot_self_store]; exact he
                      exact count_cons_le_of_ne (Ne.symm hij) ih
                  | true =>
                      cases hex : (st.store j).executed with
                      | true =>
                          rw [try_acquire_of_lose hss hex] at h3
                          cases h3
                      | false =>
                          rw [emitLoop_cons_invoke_single alive act rest st need
                            h1 h2 hss hex]
                          by_cases hij : i = j
                          · subst hij
                            have hnm : i ∉ traceIds (emitLoop alive act rest
                                ((runAction (act i)
                                  ((st.updateSlot i
                                    (fun _ => {st.store i with executed := true})).markPending
                                      i)).1) true).2.2 := by
                              refine emitLoop_single_not_mem alive act rest _ true i ?_ ?_
                              · rw [runAction_store_single, markPending_store_single,
                                  updateSlot_store]
                                simp [hs]
                              · rw [runAction_store_executed, markPending_store_executed,
                                  updateSlot_store]
                                simp
                            exact count_cons_self_le_one hnm
                          · have ih : (traceIds (emitLoop alive act rest
                                ((runAction (act j)
                                  ((st.updateSlot j
                                    (fun _ => {st.store j with executed := true})).markPending
                                      j)).1) true).2.2).count i ≤ 1 := by
                              refine emitLoop_single_count alive act rest _ true i ?_ ?_
                              · rw [runAction_store_single,
                                  invoke_single_store_ne st _ hij]; exact hs
                              · rw [runAction_store_executed,
                                  invoke_single_store_ne st _ hij]; exact he
                            exact count_cons_le_of_ne (Ne.symm hij) ih

/-- When no callback touches the signal, the loop leaves the slot
list, tag registry and dirty flag unchanged (it only writes slot
records). -/
theorem emitLoop_frame_benign (alive : Nat → Bool) {act : Nat → Action}
    (hb : Benign act) :
    ∀ (snap : List Nat) (st : SigState) (need : Bool),
      ((emitLoop alive act snap st need).1).slots = st.slots ∧
        ((emitLoop alive act snap st need).1).tags = st.tags ∧
        ((emitLoop alive act snap st need).1).dirty = st.dirty
  | [], _, _ => ⟨rfl, rfl, rfl⟩
  | j :: rest, st, need => by
      cases h1 : ((st.store j).has_tracked_object &&
        (st.store j).tracked_expired alive) with
      | true =>
          rw [emitLoop_cons_expired alive act rest st need h1]
          exact emitLoop_frame_benign alive hb rest (st.markPending j) true
      | false =>
          cases h2 : (st.store j).is_callable alive with
          | false =>
              rw [emitLoop_cons_skip alive act rest st need h1 h2]
              exact emitLoop_frame_benign alive hb rest st need
          | true =>
              cases h3 : ((st.store j).try_acquire_execution).1 with
              | false =>
                  rw [emitLoop_cons_lost alive act rest st need h1 h2 h3]
                  exact emitLoop_frame_benign alive hb rest st need
              | true =>
                  cases hss : (st.store j).single_shot with
                  | false =>
                      rw [emitLoop_cons_invoke_multi alive act rest st need h1 h2 hss]
                      have hb3 : (runAction (act j)
                          (st.updateSlot j (fun _ => st.store j))).1
                          = st.updateSlot j (fun _ => st.store j) :=
                        runAction_benign_state _ (hb j)
                      obtain ⟨e1, e2, e3⟩ := emitLoop_frame_benign alive hb rest
                        ((runAction (act j) (st.updateSlot j (fun _ => st.store j))).1)
                        need
                      exact ⟨e1.trans (by rw [hb3]; rfl), e2.trans (by rw [hb3]; rfl),
                        e3.trans (by rw [hb3]; rfl)⟩
                  | true =>
                      cases hex : (st.store j).executed with
                      | true =>
                          rw [try_acquire_of_lose hss hex] at h3
                          cases h3
                      | false =>
                          rw [emitLoop_cons_invoke_single alive act rest st need
                            h1 h2 hss hex]
                          have hb3 : (runAction (act j)
                              ((st.updateSlot j
                                (fun _ => {st.store j with executed := true})).markPending
                                  j)).1
                              = (st.updateSlot j
                                (fun _ => {st.store j with executed := true})).markPending
                                  j :=
                            runAction_benign_state _ (hb j)
                          obtain ⟨e1, e2, e3⟩ := emitLoop_frame_benign alive hb rest
                            ((runAction (act j)
                              ((st.updateSlot j
                                (fun _ => {st.store j with executed := true})).markPending
                                  j)).1) true
                          exact ⟨e1.trans (by rw [hb3]; rfl), e2.trans (by rw [hb3]; rfl),
                            e3.trans (by rw [hb3]; rfl)⟩

/-- The `need_cleanup` flag is monotone: once set it stays set. -/
theorem emitLoop_need_mono (alive : Nat → Bool) (act : Nat → Action) :
    ∀ (snap : List Nat) (st : SigState),
      (emitLoop alive act snap st true).2.1 = true
  | [], _ => rfl
  | j :: rest, st => by
      cases h1 : ((st.store j).has_tracked_object &&
        (st.store j).tracked_expired alive) with
      | true =>
          rw [emitLoop_cons_expired alive act rest st true h1]
          exact emitLoop_need_mono alive act rest _
      | false =>
          cases h2 : (st.store j).is_callable alive with
          | false =>
              rw [emitLoop_cons_skip alive act rest st true h1 h2]
              exact emitLoop_need_mono alive act rest st
          | true =>
              cases h3 : ((st.store j).try_acquire_execution).1 with
              | false =>
                  rw [emitLoop_cons_lost alive act rest st true h1 h2 h3]
                  exact emitLoop_need_mono alive act rest st
              | true =>
                  cases hss : (st.store j).single_shot with
                  | false =>
                      rw [emitLoop_cons_invoke_multi alive act rest st true h1 h2 hss]
                      exact emitLoop_need_mono alive act rest _
                  | true =>
                      cases hex : (st.store j).executed with
                      | true =>
                          rw [try_acquire_of_lose hss hex] at h3
                          cases h3
                      | false =>
                          rw [emitLoop_cons_invoke_single alive act rest st true
                            h1 h2 hss hex]
                          exact emitLoop_need_mono alive act rest _

/-- Invoking a single-shot slot raises the `need_cleanup` flag for the
rest of the emission. -/
theorem emitLoop_single_need (alive : Nat → Bool) (act : Nat → Action) :
    ∀ (snap : List Nat) (st : SigState) (need : Bool)
      (p : Nat × Slot), p ∈ (emitLoop alive act snap st need).2.2 →
      p.2.single_shot = true → (emitLoop alive act snap st need).2.1 = true
  | [], _, _, _, hp, _ => by simp [emitLoop_nil] at hp
  | j :: rest, st, need, p, hp, hps => by
      cases h1 : ((st.store j).has_tracked_object &&
        (st.store j).tracked_expired alive) with
      | true =>
          rw [emitLoop_cons_expired alive act rest st need h1] at hp ⊢
          exact emitLoop_single_need alive act rest _ true p hp hps
      | false =>
          cases h2 : (st.store j).is_callable alive with
          | false =>
              rw [emitLoop_cons_skip alive act rest st need h1 h2] at hp ⊢
              exact emitLoop_single_need alive act rest st need p hp hps
          | true =>
              cases h3 : ((st.store j).try_acquire_execution).1 with
              | false =>
                  rw [emitLoop_cons_lost alive act rest st need h1 h2 h3] at hp ⊢
                  exact emitLoop_single_need alive act rest st need p hp hps
              | true =>
                  cases hss : (st.store j).single_shot with
                  | false =>
                      rw [emitLoop_cons_invoke_multi alive act rest st need h1 h2 hss]
                        at hp ⊢
                      rcases List.mem_cons.mp hp with hp | hp
                      · subst hp
                        rw [updateSlot_self_store] at hps
                        rw [hss] at hps
                        cases hps
                      · exact emitLoop_single_need alive act rest _ need p hp hps
                  | true =>
                      cases hex : (st.store j).executed with
                      | true =>
                          rw [try_acquire_of_lose hss hex] at h3
                          cases h3
                      | false =>
                          rw [emitLoop_cons_invoke_single alive act rest st need
                            h1 h2 hss hex]
                          exact emitLoop_need_mono alive act rest _

/-- On a snapshot of untracked, non-single-shot slots the loop never
raises the `need_cleanup` flag. -/
theorem emitLoop_need_pres (alive : Nat → Bool) (act : Nat → Action) :
    ∀ (snap : List Nat) (st : SigState) (need : Bool),
      (∀ j ∈ snap, (st.store j).tracked = none ∧
        (st.store j).single_shot = false) →
      (emitLoop alive act snap st need).2.1 = need
  | [], _, _, _ => rfl
  | j :: rest, st, need, hyp => by
      have hj := hyp j (List.mem_cons_self j rest)
      have h1 : ((st.store j).has_tracked_object &&
          (st.store j).tracked_expired alive) = false := by
        simp [Slot.has_tracked_object, hj.1]
      cases h2 : (st.store j).is_callable alive with
      | false =>
          rw [emitLoop_cons_skip alive act rest st need h1 h2]
          exact emitLoop_need_pres alive act rest st need
            (fun k hk => hyp k (List.mem_cons_of_mem j hk))
      | true =>
          rw [emitLoop_cons_invoke_multi alive act rest st need h1 h2 hj.2]
          refine emitLoop_need_pres alive act rest _ need (fun k hk => ?_)
          have hk' := hyp k (List.mem_cons_of_mem j hk)
          constructor
          · rw [runAction_store_tracked, updateSlot_self_store]; exact hk'.1
          · rw [runAction_store_single, updateSlot_self_store]; exact hk'.2

/-- A snapshot whose records are all flagged pending-removal produces
no invocations at all. -/
theorem emitLoop_all_pending (alive : Nat → Bool) (act : Nat → Action) :
    ∀ (snap : List Nat) (st : SigState) (need : Bool),
      (∀ j ∈ snap, (st.store j).pending_removal = true) →
      (emitLoop alive act snap st need).2.2 = []
  | [], _, _, _ => rfl
  | j :: rest, st, need, hyp => by
      have hj := hyp j (List.mem_cons_self j rest)
      cases h1 : ((st.store j).has_tracked_object &&
        (st.store j).tracked_expired alive) with
      | true =>
          rw [emitLoop_cons_expired alive act rest st need h1]
          exact emitLoop_all_pending alive act rest _ true
            (fun k hk => markPending_store_pending_mono st
              (hyp k (List.mem_cons_of_mem j hk)))
      | false =>
          rw [emitLoop_cons_skip alive act rest st need h1
            (is_callable_of_pending alive hj)]
          exact emitLoop_all_pending alive act rest st need
            (fun k hk => hyp k (List.mem_cons_of_mem j hk))

/-- The loop never unflags pending-removal and keeps every slot either
listed or flagged (the invariant behind the disconnect-all claim). -/
theorem emitLoop_inlist_or_pending (alive : Nat → Bool) (act : Nat → Action) :
    ∀ (snap : List Nat) (st : SigState) (need : Bool) (S : List Nat),
      (∀ j ∈ S, j ∈ st.slots ∨ (st.store j).pending_removal = true) →
      ∀ j ∈ S, j ∈ ((emitLoop alive act snap st need).1).slots ∨
        (((emitLoop alive act snap st need).1).store j).pending_removal = true
  | [], _, _, _, hyp, j, hj => hyp j hj
  | k :: rest, st, need, S, hyp, j, hj => by
      cases h1 : ((st.store k).has_tracked_object &&
        (st.store k).tracked_expired alive) with
      | true =>
          rw [emitLoop_cons_expired alive act rest st need h1]
          refine emitLoop_inlist_or_pending alive act rest _ true S ?_ j hj
          intro m hm
          rcases hyp m hm with h | h
          · exact Or.inl h
          · exact Or.inr (markPending_store_pending_mono st h)
      | false =>
          cases h2 : (st.store k).is_callable alive with
          | false =>
              rw [emitLoop_cons_skip alive act rest st need h1 h2]
              exact emitLoop_inlist_or_pending alive act rest st need S hyp j hj
          | true =>
              cases h3 : ((st.store k).try_acquire_execution).1 with
              | false =>
                  rw [emitLoop_cons_lost alive act rest st need h1 h2 h3]
                  exact emitLoop_inlist_or_pending alive act rest st need S hyp j hj
              | true =>
                  cases hss : (st.store k).single_shot with
                  | false =>
                      rw [emitLoop_cons_invoke_multi alive act rest st need h1 h2 hss]
                      refine emitLoop_inlist_or_pending alive act rest _ need S ?_ j hj
                      intro m hm
                      refine runAction_inlist_or_pending ?_
                      rcases hyp m hm with h | h
                      · exact Or.inl h
                      · refine Or.inr ?_
                        rw [updateSlot_self_store]
                        exact h
                  | true =>
                      cases hex : (st.store k).executed with
                      | true =>
                          rw [try_acquire_of_lose hss hex] at h3
                          cases h3
                      | false =>
                          rw [emitLoop_cons_invoke_single alive act rest st need
                            h1 h2 hss hex]
                          refine emitLoop_inlist_or_pending alive act rest _ true S ?_ j hj
                          intro m hm
                          refine runAction_inlist_or_pending ?_
                          rcases hyp m hm with h | h
                          · exact Or.inl h
                          · refine Or.inr ?_
                            by_cases hmk : m = k
                            · subst hmk
                              rw [markPending_store]
                              simp
                            · rw [invoke_single_store_ne st _ hmk]
                              exact h

/-- When no callback touches the signal, the record of an untracked,
never-invoked slot is left exactly as it was. -/
theorem emitLoop_store_pres_benign (alive : Nat → Bool) {act : Nat → Action}
    (hb : Benign act) :
    ∀ (snap : List Nat) (st : SigState) (need : Bool) (i : Nat),
      (st.store i).tracked = none →
      i ∉ traceIds (emitLoop alive act snap st need).2.2 →
      ((emitLoop alive act snap st need).1).store i = st.store i
  | [], _, _, _, _, _ => rfl
  | j :: rest, st, need, i, ht, hm => by
      cases h1 : ((st.store j).has_tracked_object &&
        (st.store j).tracked_expired alive) with
      | true =>
          have hij : i ≠ j := by
            intro h
            subst h
            rcases Bool.and_eq_true_iff.mp h1 with ⟨hh, _⟩
            rw [Slot.has_tracked_object, ht] at hh
            cases hh
          rw [emitLoop_cons_expired alive act rest st need h1] at hm ⊢
          have hpres : (st.markPending j).store i = st.store i := by
            rw [markPending_store]
            simp [hij]
          rw [emitLoop_store_pres_benign alive hb rest _ true i
            (by rw [hpres]; exact ht) hm]
          exact hpres
      | false =>
          cases h2 : (st.store j).is_callable alive with
          | false =>
              rw [emitLoop_cons_skip alive act rest st need h1 h2] at hm ⊢
              exact emitLoop_store_pres_benign alive hb rest st need i ht hm
          | true =>
              cases h3 : ((st.store j).try_acquire_execution).1 with
              | false =>
                  rw [emitLoop_cons_lost alive act rest st need h1 h2 h3] at hm ⊢
                  exact emitLoop_store_pres_benign alive hb rest st need i ht hm
              | true =>
                  cases hss : (st.store j).single_shot with
                  | false =>
                      rw [emitLoop_cons_invoke_multi alive act rest st need h1 h2 hss]
                        at hm ⊢
                      simp only [traceIds, List.map_cons, List.mem_cons, not_or] at hm
                      have hb3 : (runAction (act j)
                          (st.updateSlot j (fun _ => st.store j))).1
                          = st.updateSlot j (fun _ => st.store j) :=
                        runAction_benign_state _ (hb j)
                      have hpres : (st.updateSlot j (fun _ => st.store j)).store i
                          = st.store i := updateSlot_self_store st j i
                      have ih := emitLoop_store_pres_benign alive hb rest
                        ((runAction (act j) (st.updateSlot j (fun _ => st.store j))).1)
                        need i (by rw [hb3, hpres]; exact ht) hm.2
                      exact ih.trans (by rw [hb3, hpres])
                  | true =>
                      cases hex : (st.store j).executed with
                      | true =>
                          rw [try_acquire_of_lose hss hex] at h3
                          cases h3
                      | false =>
                          rw [emitLoop_cons_invoke_single alive act rest st need
                            h1 h2 hss hex] at hm ⊢
                          simp only [traceIds, List.map_cons, List.mem_cons, not_or] at hm
                          have hb3 : (runAction (act j)
                              ((st.updateSlot j
                                (fun _ => {st.store j with executed := true})).markPending
                                  j)).1
                              = (st.updateSlot j
                                (fun _ => {st.store j with executed := true})).markPending
                                  j :=
                            runAction_benign_state _ (hb j)
                          have hpres : ((st.updateSlot j
                              (fun _ => {st.store j with executed := true})).markPending
                                j).store i = st.store i :=
                            invoke_single_store_ne st _ hm.1
                          have ih := emitLoop_store_pres_benign alive hb rest
                            ((runAction (act j)
                              ((st.updateSlot j
                                (fun _ => {st.store j with executed := true})).markPending
                                  j)).1) true i (by rw [hb3, hpres]; exact ht) hm.2
                          exact ih.trans (by rw [hb3, hpres])

/-! ### Shape lemmas for one whole emission -/

theorem preState_store (st : SigState) : (preState st).store = st.store := by
  unfold preState
  split <;> rfl

theorem preState_tags (st : SigState) : (preState st).tags = st.tags := by
  unfold preState
  split <;> rfl

theorem preState_dirty (st : SigState) : (preState st).dirty = false := by
  unfold preState
  split
  · rfl
  · next h => exact Bool.not_eq_true _ ▸ Bool.eq_false_iff.mpr h

theorem preState_slots_of_dirty {st : SigState} (h : st.dirty = true) :
    (preState st).slots =
      sortSlots (st.cleanup_slots_locked).store (st.cleanup_slots_locked).slots := by
  unfold preState
  rw [if_pos h]

theorem preState_slots_of_clean {st : SigState} (h : st.dirty = false) :
    (preState st).slots = st.slots := by
  unfold preState
  rw [h]
  rfl

theorem emitState_empty (alive : Nat → Bool) (act : Nat → Action) {st : SigState}
    (h : st.slots.isEmpty = true) : emitState alive act st = (st, []) := by
  simp [emitState, h]

theorem emitState_snd_of_ne (alive : Nat → Bool) (act : Nat → Action) {st : SigState}
    (hE : st.slots.isEmpty = false) :
    (emitState alive act st).2 =
      (emitLoop alive act (preState st).slots (preState st) false).2.2 := by
  simp only [emitState, hE, Bool.false_eq_true, if_false]

theorem emitState_fst_store_of_ne (alive : Nat → Bool) (act : Nat → Action)
    {st : SigState} (hE : st.slots.isEmpty = false) :
    ((emitState alive act st).1).store =
      ((emitLoop alive act (preState st).slots (preState st) false).1).store := by
  simp only [emitState, hE, Bool.false_eq_true, if_false]
  split <;> rfl

theorem emitState_fst_slots_of_ne (alive : Nat → Bool) (act : Nat → Action)
    {st : SigState} (hE : st.slots.isEmpty = false) :
    ((emitState alive act st).1).slots =
      ((emitLoop alive act (preState st).slots (preState st) false).1).slots := by
  simp only [emitState, hE, Bool.false_eq_true, if_false]
  split <;> rfl

theorem emitState_fst_tags_of_ne (alive : Nat → Bool) (act : Nat → Action)
    {st : SigState} (hE : st.slots.isEmpty = false) :
    ((emitState alive act st).1).tags =
      ((emitLoop alive act (preState st).slots (preState st) false).1).tags := by
  simp only [emitState, hE, Bool.false_eq_true, if_false]
  split <;> rfl

theorem emitState_fst_dirty_of_ne (alive : Nat → Bool) (act : Nat → Action)
    {st : SigState} (hE : st.slots.isEmpty = false) :
    ((emitState alive act st).1).dirty =
      (if (emitLoop alive act (preState st).slots (preState st) false).2.1 then true
       else ((emitLoop alive act (preState st).slots (preState st) false).1).dirty) := by
  simp only [emitState, hE, Bool.false_eq_true, if_false]
  split <;> simp

/-! ### Per-emission invariants -/

/-- A record flagged pending-removal stays flagged through a whole
emission and the emission never invokes it. -/
theorem emitState_pending (alive : Nat → Bool) (act : Nat → Action)
    {st : SigState} {i : Nat} (h : (st.store i).pending_removal = true) :
    (((emitState alive act st).1).store i).pending_removal = true ∧
      i ∉ traceIds (emitState alive act st).2 := by
  cases hE : st.slots.isEmpty with
  | true =>
      rw [emitState_empty alive act hE]
      exact ⟨h, by simp [traceIds]⟩
  | false =>
      have h' : ((preState st).store i).pending_removal = true := by
        rw [preState_store]; exact h
      have hl := emitLoop_pending alive act (preState st).slots (preState st) false i h'
      rw [emitState_fst_store_of_ne alive act hE, emitState_snd_of_ne alive act hE]
      exact hl

/-- A single-shot record with `executed` already set is not invoked by
an emission, and keeps `executed` set. -/
theorem emitState_single_executed (alive : Nat → Bool) (act : Nat → Action)
    {st : SigState} {i : Nat} (hs : (st.store i).single_shot = true)
    (he : (st.store i).executed = true) :
    i ∉ traceIds (emitState alive act st).2 ∧
      (((emitState alive act st).1).store i).executed = true := by
  cases hE : st.slots.isEmpty with
  | true =>
      rw [emitState_empty alive act hE]
      exact ⟨by simp [traceIds], he⟩
  | false =>
      have hs' : ((preState st).store i).single_shot = true := by
        rw [preState_store]; exact hs
      have he' : ((preState st).store i).executed = true := by
        rw [preState_store]; exact he
      rw [emitState_fst_store_of_ne alive act hE, emitState_snd_of_ne alive act hE]
      have hnm := emitLoop_single_not_mem alive act (preState st).slots (preState st)
        false i hs' he'
      refine ⟨hnm, ?_⟩
      exact ((emitLoop_not_mem_store alive act (preState st).slots (preState st)
        false i hnm).1).trans he'

/-- An emission that invokes a single-shot slot leaves its `executed`
flag set. -/
theorem emitState_mem_executed (alive : Nat → Bool) (act : Nat → Action)
    {st : SigState} {i : Nat} (hs : (st.store i).single_shot = true)
    (hm : i ∈ traceIds (emitState alive act st).2) :
    (((emitState alive act st).1).store i).executed = true := by
  cases hE : st.slots.isEmpty with
  | true =>
      rw [emitState_empty alive act hE] at hm
      simp [traceIds] at hm
  | false =>
      have hs' : ((preState st).store i).single_shot = true := by
        rw [preState_store]; exact hs
      rw [emitState_snd_of_ne alive act hE] at hm
      rw [emitState_fst_store_of_ne alive act hE]
      exact emitLoop_mem_executed alive act (preState st).slots (preState st)
        false i hs' hm

/-- An emission that does not invoke a slot leaves every field of its
record except `pending_removal` unchanged. -/
theorem emitState_not_mem_store (alive : Nat → Bool) (act : Nat → Action)
    {st : SigState} {i : Nat} (hm : i ∉ traceIds (emitState alive act st).2) :
    (((emitState alive act st).1).store i).executed = (st.store i).executed ∧
      (((emitState alive act st).1).store i).single_shot
        = (st.store i).single_shot ∧
      (((emitState alive act st).1).store i).blocked = (st.store i).blocked ∧
      (((emitState alive act st).1).store i).tracked = (st.store i).tracked := by
  cases hE : st.slots.isEmpty with
  | true =>
      rw [emitState_empty alive act hE]
      exact ⟨rfl, rfl, rfl, rfl⟩
  | false =>
      rw [emitState_snd_of_ne alive act hE] at hm
      rw [emitState_fst_store_of_ne alive act hE]
      have hl := emitLoop_not_mem_store alive act (preState st).slots (preState st)
        false i hm
      rw [preState_store] at hl
      exact hl

/-- Within one emission, a single-shot slot whose `executed` flag
starts `false` is invoked at most once. -/
theorem emitState_single_count (alive : Nat → Bool) (act : Nat → Action)
    {st : SigState} {i : Nat} (hs : (st.store i).single_shot = true)
    (he : (st.store i).executed = false) :
    (traceIds (emitState alive act st).2).count i ≤ 1 := by
  cases hE : st.slots.isEmpty with
  | true =>
      rw [emitState_empty alive act hE]
      simp [traceIds]
  | false =>
      have hs' : ((preState st).store i).single_shot = true := by
        rw [preState_store]; exact hs
      have he' : ((preState st).store i).executed = false := by
        rw [preState_store]; exact he
      rw [emitState_snd_of_ne alive act hE]
      exact emitLoop_single_count alive act (preState st).slots (preState st)
        false i hs' he'

/-- Nothing in the loop ever changes a record's `single_shot` flag. -/
theorem emitLoop_single_shot_pres (alive : Nat → Bool) (act : Nat → Action) :
    ∀ (snap : List Nat) (st : SigState) (need : Bool) (i : Nat),
      (((emitLoop alive act snap st need).1).store i).single_shot
        = (st.store i).single_shot
  | [], _, _, _ => rfl
  | j :: rest, st, need, i => by
      cases h1 : ((st.store j).has_tracked_object &&
        (st.store j).tracked_expired alive) with
      | true =>
          rw [emitLoop_cons_expired alive act rest st need h1]
          exact (emitLoop_single_shot_pres alive act rest _ true i).trans
            (markPending_store_single st j i)
      | false =>
          cases h2 : (st.store j).is_callable alive with
          | false =>
              rw [emitLoop_cons_skip alive act rest st need h1 h2]
              exact emitLoop_single_shot_pres alive act rest st need i
          | true =>
              cases h3 : ((st.store j).try_acquire_execution).1 with
              | false =>
                  rw [emitLoop_cons_lost alive act rest st need h1 h2 h3]
                  exact emitLoop_single_shot_pres alive act rest st need i
              | true =>
                  cases hss : (st.store j).single_shot with
                  | false =>
                      rw [emitLoop_cons_invoke_multi alive act rest st need h1 h2 hss]
                      refine (emitLoop_single_shot_pres alive act rest _ need i).trans ?_
                      rw [runAction_store_single, updateSlot_self_store]
                  | true =>
                      cases hex : (st.store j).executed with
                      | true =>
                          rw [try_acquire_of_lose hss hex] at h3
                          cases h3
                      | false =>
                          rw [emitLoop_cons_invoke_single alive act rest st need
                            h1 h2 hss hex]
                          refine (emitLoop_single_shot_pres alive act rest _ true i).trans ?_
                          rw [runAction_store_single]
                          by_cases hij : i = j
                          · subst hij
                            rw [markPending_store_single, updateSlot_store]
                            simp
                          · rw [invoke_single_store_ne st _ hij]

/-- An emission never changes a record's `single_shot` flag. -/
theorem emitState_single_shot_pres (alive : Nat → Bool) (act : Nat → Action)
    (st : SigState) (i : Nat) :
    (((emitState alive act st).1).store i).single_shot
      = (st.store i).single_shot := by
  cases hE : st.slots.isEmpty with
  | true => rw [emitState_empty alive act hE]
  | false =>
      rw [emitState_fst_store_of_ne alive act hE]
      exact (emitLoop_single_shot_pres alive act (preState st).slots (preState st)
        false i).trans (congrArg Slot.single_shot (congrFun (preState_store st) i))

/-! ### Sequences of emissions -/

/-- A single-shot record whose `executed` flag is set is never invoked
again across any sequence of emissions. -/
theorem runSeq_single_executed (i : Nat) :
    ∀ (envs : List ((Nat → Bool) × (Nat → Action))) (st : SigState),
      (st.store i).single_shot = true → (st.store i).executed = true →
      (((runSeq envs st).2).map (fun tr => (traceIds tr).count i)).sum = 0 ∧
        (((runSeq envs st).1).store i).executed = true ∧
        (((runSeq envs st).1).store i).single_shot = true
  | [], _, hs, he => ⟨rfl, he, hs⟩
  | e :: rest, st, hs, he => by
      have h1 := emitState_single_executed e.1 e.2 hs he
      have hs1 : (((emitState e.1 e.2 st).1).store i).single_shot = true :=
        (emitState_single_shot_pres e.1 e.2 st i).trans hs
      have ih := runSeq_single_executed i rest (emitState e.1 e.2 st).1 hs1 h1.2
      refine ⟨?_, ih.2.1, ih.2.2⟩
      show (traceIds (emitState e.1 e.2 st).2).count i +
        (((runSeq rest (emitState e.1 e.2 st).1).2).map
          (fun tr => (traceIds tr).count i)).sum = 0
      rw [List.count_eq_zero_of_not_mem h1.1, ih.1]

/-- Across any sequence of emissions, a single-shot slot is invoked at
most once in total. -/
theorem runSeq_single_le_one (i : Nat) :
    ∀ (envs : List ((Nat → Bool) × (Nat → Action))) (st : SigState),
      (st.store i).single_shot = true → (st.store i).executed = false →
      (((runSeq envs st).2).map (fun tr => (traceIds tr).count i)).sum ≤ 1
  | [], _, _, _ => by simp [runSeq]
  | e :: rest, st, hs, he => by
      have hc1 := emitState_single_count e.1 e.2 hs he
      have hs1 : (((emitState e.1 e.2 st).1).store i).single_shot = true :=
        (emitState_single_shot_pres e.1 e.2 st i).trans hs
      show (traceIds (emitState e.1 e.2 st).2).count i +
        (((runSeq rest (emitState e.1 e.2 st).1).2).map
          (fun tr => (traceIds tr).count i)).sum ≤ 1
      by_cases hm : i ∈ traceIds (emitState e.1 e.2 st).2
      · have hex1 := emitState_mem_executed e.1 e.2 hs hm
        rw [(runSeq_single_executed i rest (emitState e.1 e.2 st).1 hs1 hex1).1]
        omega
      · rw [List.count_eq_zero_of_not_mem hm]
        have hex1 : (((emitState e.1 e.2 st).1).store i).executed = false :=
          ((emitState_not_mem_store e.1 e.2 hm).1).trans he
        have ih := runSeq_single_le_one i rest (emitState e.1 e.2 st).1 hs1 hex1
        omega

/-- A record flagged pending-removal is not invoked by any later
emission, and stays flagged. -/
theorem runSeq_pending (i : Nat) :
    ∀ (envs : List ((Nat → Bool) × (Nat → Action))) (st : SigState),
      (st.store i).pending_removal = true →
      (∀ tr ∈ (runSeq envs st).2, i ∉ traceIds tr) ∧
        (((runSeq envs st).1).store i).pending_removal = true
  | [], _, hp => ⟨by simp [runSeq], hp⟩
  | e :: rest, st, hp => by
      have h1 := emitState_pending e.1 e.2 hp
      have ih := runSeq_pending i rest (emitState e.1 e.2 st).1 h1.1
      refine ⟨?_, ih.2⟩
      intro tr htr
      rcases List.mem_cons.mp htr with htr | htr
      · subst htr; exact h1.2
      · exact ih.1 tr htr

/-! ### Self-disconnecting slots -/

/-- If slot `i`'s callback disconnects `i`'s own connection, one loop
pass invokes `i` at most once, and after an invocation the record is
flagged pending-removal. -/
theorem emitLoop_selfdisc (alive : Nat → Bool) {act : Nat → Action} {i : Nat}
    (hact : act i = .disconnectConn i) :
    ∀ (snap : List Nat) (st : SigState) (need : Bool),
      (traceIds (emitLoop alive act snap st need).2.2).count i ≤ 1 ∧
        (i ∈ traceIds (emitLoop alive act snap st need).2.2 →
          (((emitLoop alive act snap st need).1).store i).pending_removal = true)
  | [], _, _ => by simp [emitLoop_nil, traceIds]
  | j :: rest, st, need => by
      cases h1 : ((st.store j).has_tracked_object &&
        (st.store j).tracked_expired alive) with
      | true =>
          rw [emitLoop_cons_expired alive act rest st need h1]
          exact emitLoop_selfdisc alive hact rest _ true
      | false =>
          cases h2 : (st.store j).is_callable alive with
          | false =>
              rw [emitLoop_cons_skip alive act rest st need h1 h2]
              exact emitLoop_selfdisc alive hact rest st need
          | true =>
              cases h3 : ((st.store j).try_acquire_execution).1 with
              | false =>
                  rw [emitLoop_cons_lost alive act rest st need h1 h2 h3]
                  exact emitLoop_selfdisc alive hact rest st need
              | true =>
                  cases hss : (st.store j).single_shot with
                  | false =>
                      rw [emitLoop_cons_invoke_multi alive act rest st need h1 h2 hss]
                      by_cases hij : i = j
                      · subst hij
                        have hp3 : (((runAction (act i)
                            (st.updateSlot i (fun _ => st.store i))).1).store
                              i).pending_removal = true := by
                          rw [hact]
                          simp [runAction, SigState.disconnect_slot, markPending_store]
                        have hl := emitLoop_pending alive act rest _ need i hp3
                        constructor
                        · exact count_cons_self_le_one hl.2
                        · intro _
                          exact hl.1
                      · have ih := emitLoop_selfdisc alive hact rest
                          ((runAction (act j)
                            (st.updateSlot j (fun _ => st.store j))).1) need
                        constructor
                        · exact count_cons_le_of_ne (Ne.symm hij) ih.1
                        · intro hm
                          rcases List.mem_cons.mp hm with hm | hm
                          · exact absurd hm hij
                          · exact ih.2 hm
                  | true =>
                      cases hex : (st.store j).executed with
                      | true =>
                          rw [try_acquire_of_lose hss hex] at h3
                          cases h3
                      | false =>
                          rw [emitLoop_cons_invoke_single alive act rest st need
                            h1 h2 hss hex]
                          by_cases hij : i = j
                          · subst hij
                            have hp3 : (((runAction (act i)
                                ((st.updateSlot i
                                  (fun _ => {st.store i with executed := true})).markPending
                                    i)).1).store i).pending_removal = true := by
                              refine runAction_pending_mono ?_
                              rw [markPending_store]
                              simp
                            have hl := emitLoop_pending alive act rest _ true i hp3
                            constructor
                            · exact count_cons_self_le_one hl.2
                            · intro _
                              exact hl.1
                          · have ih := emitLoop_selfdisc alive hact rest
                              ((runAction (act j)
                                ((st.updateSlot j
                                  (fun _ => {st.store j with executed := true})).markPending
                                    j)).1) true
                            constructor
                            · exact count_cons_le_of_ne (Ne.symm hij) ih.1
                            · intro hm
                              rcases List.mem_cons.mp hm with hm | hm
                              · exact absurd hm hij
                              · exact ih.2 hm

/-- Emission-level version of `emitLoop_selfdisc`. -/
theorem emitState_selfdisc (alive : Nat → Bool) {act : Nat → Action} {i : Nat}
    (hact : act i = .disconnectConn i) (st : SigState) :
    (traceIds (emitState alive act st).2).count i ≤ 1 ∧
      (i ∈ traceIds (emitState alive act st).2 →
        (((emitState alive act st).1).store i).pending_removal = true) := by
  cases hE : st.slots.isEmpty with
  | true =>
      rw [emitState_empty alive act hE]
      simp [traceIds]
  | false =>
      rw [emitState_snd_of_ne alive act hE, emitState_fst_store_of_ne alive act hE]
      exact emitLoop_selfdisc alive hact (preState st).slots (preState st) false

/-- A self-disconnecting slot runs at most once across any sequence of
emissions in which its callback self-disconnects. -/
theorem runSeq_selfdisc (i : Nat) :
    ∀ (envs : List ((Nat → Bool) × (Nat → Action))) (st : SigState),
      (∀ e ∈ envs, e.2 i = .disconnectConn i) →
      (((runSeq envs st).2).map (fun tr => (traceIds tr).count i)).sum ≤ 1
  | [], _, _ => by simp [runSeq]
  | e :: rest, st, hact => by
      have he := hact e (List.mem_cons_self e rest)
      have h1 := emitState_selfdisc e.1 he st
      show (traceIds (emitState e.1 e.2 st).2).count i +
        (((runSeq rest (emitState e.1 e.2 st).1).2).map
          (fun tr => (traceIds tr).count i)).sum ≤ 1
      by_cases hm : i ∈ traceIds (emitState e.1 e.2 st).2
      · have hp := h1.2 hm
        have hz : (((runSeq rest (emitState e.1 e.2 st).1).2).map
            (fun tr => (traceIds tr).count i)).sum = 0 := by
          refine List.sum_eq_zero ?_
          intro x hx
          rcases List.mem_map.mp hx with ⟨tr, htr, hxe⟩
          rw [← hxe]
          exact List.count_eq_zero_of_not_mem
            ((runSeq_pending i rest (emitState e.1 e.2 st).1 hp).1 tr htr)
        have hc := h1.1
        omega
      · rw [List.count_eq_zero_of_not_mem hm]
        have ih := runSeq_selfdisc i rest (emitState e.1 e.2 st).1
          (fun e' he' => hact e' (List.mem_cons_of_mem e he'))
        omega

/-! ### Emission-stopping effect of disconnect_all -/

theorem eq_singleton_decomp {i : Nat} {pre post : List Nat}
    (h : [i] = pre ++ i :: post) : post = [] := by
  have hlen := congrArg List.length h
  simp only [List.length_cons, List.length_append, List.length_nil] at hlen
  have hz : post.length = 0 := by omega
  exact List.eq_nil_of_length_eq_zero hz

/-- If slot `i`'s callback calls `disconnect_all`, then no slot at all
is invoked after `i` within the same loop pass: `disconnect_all` flags
every record still in the list, and the loop rechecks callability per
slot. The hypothesis is the loop invariant that every snapshot entry is
either still listed or already flagged. -/
theorem emitLoop_disc_all_tail (alive : Nat → Bool) {act : Nat → Action} {i : Nat}
    (hact : act i = .disconnectAllAct) :
    ∀ (snap : List Nat) (st : SigState) (need : Bool),
      (∀ j ∈ snap, j ∈ st.slots ∨ (st.store j).pending_removal = true) →
      ∀ pre post,
        traceIds (emitLoop alive act snap st need).2.2 = pre ++ i :: post →
        post = []
  | [], _, need, _, pre, post, h => by
      rw [emitLoop_nil] at h
      simp only [traceIds, List.map_nil] at h
      rw [eq_comm, List.append_eq_nil] at h
      exact absurd h.2 (List.cons_ne_nil i post)
  | j :: rest, st, need, hinv, pre, post, h => by
      cases h1 : ((st.store j).has_tracked_object &&
        (st.store j).tracked_expired alive) with
      | true =>
          rw [emitLoop_cons_expired alive act rest st need h1] at h
          refine emitLoop_disc_all_tail alive hact rest _ true ?_ pre post h
          intro m hm
          rcases hinv m (List.mem_cons_of_mem j hm) with hx | hx
          · exact Or.inl hx
          · exact Or.inr (markPending_store_pending_mono st hx)
      | false =>
          cases h2 : (st.store j).is_callable alive with
          | false =>
              rw [emitLoop_cons_skip alive act rest st need h1 h2] at h
              exact emitLoop_disc_all_tail alive hact rest st need
                (fun m hm => hinv m (List.mem_cons_of_mem j hm)) pre post h
          | true =>
              cases h3 : ((st.store j).try_acquire_execution).1 with
              | false =>
                  rw [emitLoop_cons_lost alive act rest st need h1 h2 h3] at h
                  exact emitLoop_disc_all_tail alive hact rest st need
                    (fun m hm => hinv m (List.mem_cons_of_mem j hm)) pre post h
              | true =>
                  cases hss : (st.store j).single_shot with
                  | false =>
                      rw [emitLoop_cons_invoke_multi alive act rest st need h1 h2 hss]
                        at h
                      simp only [traceIds, List.map_cons] at h
                      by_cases hij : j = i
                      · subst hij
                        have hT : (emitLoop alive act rest
                            ((runAction (act j)
                              (st.updateSlot j (fun _ => st.store j))).1) need).2.2
                            = [] := by
                          refine emitLoop_all_pending alive act rest _ need ?_
                          intro m hm
                          rw [hact]
                          show (((st.updateSlot j
                            (fun _ => st.store j)).disconnect_all).store
                              m).pending_removal = true
                          rcases hinv m (List.mem_cons_of_mem j hm) with hx | hx
                          · simp [SigState.disconnect_all, updateSlot_slots, hx]
                          · simp only [SigState.disconnect_all]
                            split
                            · rfl
                            · rw [updateSlot_self_store]
                              exact hx
                        rw [hT] at h
                        exact eq_singleton_decomp h
                      · cases pre with
                        | nil => exact absurd (List.cons.inj h).1 hij
                        | cons x pre' =>
                            refine emitLoop_disc_all_tail alive hact rest _ need
                              ?_ pre' post (List.cons.inj h).2
                            intro m hm
                            refine runAction_inlist_or_pending ?_
                            rcases hinv m (List.mem_cons_of_mem j hm) with hx | hx
                            · exact Or.inl hx
                            · exact Or.inr (by rw [updateSlot_self_store]; exact hx)
                  | true =>
                      cases hex : (st.store j).executed with
                      | true =>
                          rw [try_acquire_of_lose hss hex] at h3
                          cases h3
                      | false =>
                          rw [emitLoop_cons_invoke_single alive act rest st need
                            h1 h2 hss hex] at h
                          simp only [traceIds, List.map_cons] at h
                          by_cases hij : j = i
                          · subst hij
                            have hT : (emitLoop alive act rest
                                ((runAction (act j)
                                  ((st.updateSlot j
                                    (fun _ => {st.store j with executed := true})).markPending
                                      j)).1) true).2.2 = [] := by
                              refine emitLoop_all_pending alive act rest _ true ?_
                              intro m hm
                              rw [hact]
                              show ((((st.updateSlot j
                                (fun _ => {st.store j with executed := true})).markPending
                                  j).disconnect_all).store m).pending_removal = true
                              rcases hinv m (List.mem_cons_of_mem j hm) with hx | hx
                              · simp [SigState.disconnect_all, markPending_slots,
                                  updateSlot_slots, hx]
                              · simp only [SigState.disconnect_all]
                                split
                                · rfl
                                · by_cases hmj : m = j
                                  · subst hmj
                                    rw [markPending_store]
                                    simp
                                  · rw [invoke_single_store_ne st _ hmj]
                                    exact hx
                            rw [hT] at h
                            exact eq_singleton_decomp h
                          · cases pre with
                            | nil => exact absurd (List.cons.inj h).1 hij
                            | cons x pre' =>
                                refine emitLoop_disc_all_tail alive hact rest _ true
                                  ?_ pre' post (List.cons.inj h).2
                                intro m hm
                                refine runAction_inlist_or_pending ?_
                                rcases hinv m (List.mem_cons_of_mem j hm) with hx | hx
                                · exact Or.inl hx
                                · refine Or.inr ?_
                                  by_cases hmj : m = j
                                  · subst hmj
                                    rw [markPending_store]
                                    simp
                                  · rw [invoke_single_store_ne st _ hmj]
                                    exact hx

/-- Emission-level version: after the slot whose callback calls
`disconnect_all`, no further slot of the same emission is invoked. -/
theorem emitState_disc_all_tail (alive : Nat → Bool) {act : Nat → Action} {i : Nat}
    (hact : act i = .disconnectAllAct) (st : SigState) :
    ∀ pre post, traceIds (emitState alive act st).2 = pre ++ i :: post →
      post = [] := by
  intro pre post h
  cases hE : st.slots.isEmpty with
  | true =>
      rw [emitState_empty alive act hE] at h
      simp only [traceIds, List.map_nil] at h
      rw [eq_comm, List.append_eq_nil] at h
      exact absurd h.2 (List.cons_ne_nil i post)
  | false =>
      rw [emitState_snd_of_ne alive act hE] at h
      exact emitLoop_disc_all_tail alive hact (preState st).slots (preState st) false
        (fun j hj => Or.inl hj) pre post h

/-! ### Order transfer through sublists (for the priority claim) -/

/-- In a duplicate-free list, relative order transfers to any sublist
containing both elements. -/
theorem pair_sublist_transfer {α : Type} {a b : α} {l u : List α}
    (hu : List.Sublist u l) :
    l.Nodup → List.Sublist [a, b] l → a ∈ u → b ∈ u →
      List.Sublist [a, b] u := by
  induction hu with
  | slnil =>
      intro _ _ ha _
      cases ha
  | cons x h ih =>
      intro hnd hab ha hb
      rcases List.nodup_cons.mp hnd with ⟨hx, hnd'⟩
      cases hab with
      | cons _ hab' => exact ih hnd' hab' ha hb
      | cons₂ _ hab' => exact absurd (h.subset ha) hx
  | @cons₂ u' l' x h ih =>
      intro hnd hab ha hb
      rcases List.nodup_cons.mp hnd with ⟨hx, hnd'⟩
      have hne : a ≠ b := by
        have hpair : ([a, b]).Nodup := hab.nodup hnd
        simp only [List.nodup_cons, List.mem_singleton] at hpair
        exact hpair.1
      cases hab with
      | cons₂ _ hab' =>
          rcases List.mem_cons.mp hb with hba | hbu
          · exact absurd hba (Ne.symm hne)
          · exact List.Sublist.cons₂ _ (List.singleton_sublist.mpr hbu)
      | cons _ hab' =>
          have hax : a ≠ x := by
            intro h0
            exact hx (h0 ▸ hab'.subset (List.mem_cons_self a [b]))
          have hbx : b ≠ x := by
            intro h0
            exact hx (h0 ▸ hab'.subset (List.mem_cons_of_mem a (List.mem_cons_self b [])))
          rcases List.mem_cons.mp ha with h0 | hau
          · exact absurd h0 hax
          · rcases List.mem_cons.mp hb with h0 | hbu
            · exact absurd h0 hbx
            · exact (ih hnd' hab' hau hbu).cons x

/-! ### The stable sort -/

theorem sortSlots_sorted (store : Nat → Slot) (l : List Nat) :
    (sortSlots store l).Pairwise (prioGE store) :=
  List.sorted_insertionSort (prioGE store) l

theorem sortSlots_perm (store : Nat → Slot) (l : List Nat) :
    (sortSlots store l).Perm l :=
  List.perm_insertionSort (prioGE store) l

theorem sortSlots_pair {store : Nat → Slot} {a b : Nat} {l : List Nat}
    (hab : prioGE store a b) (h : List.Sublist [a, b] l) :
    List.Sublist [a, b] (sortSlots store l) :=
  List.pair_sublist_insertionSort hab h

/-! ### Further loop facts: blocked slots, trace entries, caught throws -/

/-- A blocked slot is never invoked (nothing in a loop pass unblocks
it, and `is_callable` checks `blocked` first). -/
theorem emitLoop_blocked_not_mem (alive : Nat → Bool) (act : Nat → Action) :
    ∀ (snap : List Nat) (st : SigState) (need : Bool) (i : Nat),
      (st.store i).blocked = true →
      i ∉ traceIds (emitLoop alive act snap st need).2.2
  | [], _, _, _, _ => by simp [emitLoop_nil, traceIds]
  | j :: rest, st, need, i, hbl => by
      cases h1 : ((st.store j).has_tracked_object &&
        (st.store j).tracked_expired alive) with
      | true =>
          rw [emitLoop_cons_expired alive act rest st need h1]
          exact emitLoop_blocked_not_mem alive act rest _ true i
            ((markPending_store_blocked st j i).trans hbl)
      | false =>
          cases h2 : (st.store j).is_callable alive with
          | false =>
              rw [emitLoop_cons_skip alive act rest st need h1 h2]
              exact emitLoop_blocked_not_mem alive act rest st need i hbl
          | true =>
              have hij : i ≠ j := by
                intro h
                rw [← h] at h2
                rw [Slot.is_callable, hbl] at h2
                simp at h2
              cases h3 : ((st.store j).try_acquire_execution).1 with
              | false =>
                  rw [emitLoop_cons_lost alive act rest st need h1 h2 h3]
                  exact emitLoop_blocked_not_mem alive act rest st need i hbl
              | true =>
                  cases hss : (st.store j).single_shot with
                  | false =>
                      rw [emitLoop_cons_invoke_multi alive act rest st need h1 h2 hss]
                      simp only [traceIds, List.map_cons, List.mem_cons, not_or]
                      refine ⟨hij, ?_⟩
                      refine emitLoop_blocked_not_mem alive act rest _ need i ?_
                      rw [runAction_store_blocked, updateSlot_self_store]
                      exact hbl
                  | true =>
                      cases hex : (st.store j).executed with
                      | true =>
                          rw [try_acquire_of_lose hss hex] at h3
                          cases h3
                      | false =>
                          rw [emitLoop_cons_invoke_single alive act rest st need
                            h1 h2 hss hex]
                          simp only [traceIds, List.map_cons, List.mem_cons, not_or]
                          refine ⟨hij, ?_⟩
                          refine emitLoop_blocked_not_mem alive act rest _ true i ?_
                          rw [runAction_store_blocked,
                            invoke_single_store_ne st _ hij]
                          exact hbl

/-- A blocked slot is never invoked by a whole emission. -/
theorem emitState_blocked_not_mem (alive : Nat → Bool) (act : Nat → Action)
    {st : SigState} {i : Nat} (hbl : (st.store i).blocked = true) :
    i ∉ traceIds (emitState alive act st).2 := by
  cases hE : st.slots.isEmpty with
  | true =>
      rw [emitState_empty alive act hE]
      simp [traceIds]
  | false =>
      rw [emitState_snd_of_ne alive act hE]
      refine emitLoop_blocked_not_mem alive act (preState st).slots (preState st)
        false i ?_
      rw [preState_store]
      exact hbl

/-- A single-shot trace entry shows the record as the callback sees it:
`executed` already set by the CAS and `pending_removal` already flagged
(the flag is stored before the callback is invoked). -/
theorem emitLoop_trace_entry_single (alive : Nat → Bool) (act : Nat → Action) :
    ∀ (snap : List Nat) (st : SigState) (need : Bool) (p : Nat × Slot),
      p ∈ (emitLoop alive act snap st need).2.2 → p.2.single_shot = true →
      p.2.pending_removal = true ∧ p.2.executed = true
  | [], _, _, _, hp, _ => by simp [emitLoop_nil] at hp
  | j :: rest, st, need, p, hp, hps => by
      cases h1 : ((st.store j).has_tracked_object &&
        (st.store j).tracked_expired alive) with
      | true =>
          rw [emitLoop_cons_expired alive act rest st need h1] at hp
          exact emitLoop_trace_entry_single alive act rest _ true p hp hps
      | false =>
          cases h2 : (st.store j).is_callable alive with
          | false =>
              rw [emitLoop_cons_skip alive act rest st need h1 h2] at hp
              exact emitLoop_trace_entry_single alive act rest st need p hp hps
          | true =>
              cases h3 : ((st.store j).try_acquire_execution).1 with
              | false =>
                  rw [emitLoop_cons_lost alive act rest st need h1 h2 h3] at hp
                  exact emitLoop_trace_entry_single alive act rest st need p hp hps
              | true =>
                  cases hss : (st.store j).single_shot with
                  | false =>
                      rw [emitLoop_cons_invoke_multi alive act rest st need h1 h2 hss]
                        at hp
                      rcases List.mem_cons.mp hp with hp | hp
                      · subst hp
                        rw [updateSlot_self_store] at hps
                        rw [hss] at hps
                        cases hps
                      · exact emitLoop_trace_entry_single alive act rest _ need p hp hps
                  | true =>
                      cases hex : (st.store j).executed with
                      | true =>
                          rw [try_acquire_of_lose hss hex] at h3
                          cases h3
                      | false =>
                          rw [emitLoop_cons_invoke_single alive act rest st need
                            h1 h2 hss hex] at hp
                          rcases List.mem_cons.mp hp with hp | hp
                          · subst hp
                            constructor
                            · show (((st.updateSlot j
                                (fun _ => {st.store j with executed := true})).markPending
                                  j).store j).pending_removal = true
                              rw [markPending_store]
                              simp
                            · show (((st.updateSlot j
                                (fun _ => {st.store j with executed := true})).markPending
                                  j).store j).executed = true
                              rw [markPending_store_executed, updateSlot_store]
                              simp
                          · exact emitLoop_trace_entry_single alive act rest _ true p hp hps

/-- Emission-level version of `emitLoop_trace_entry_single`. -/
theorem emitState_trace_entry_single (alive : Nat → Bool) (act : Nat → Action)
    {st : SigState} {p : Nat × Slot} (hp : p ∈ (emitState alive act st).2)
    (hps : p.2.single_shot = true) :
    p.2.pending_removal = true ∧ p.2.executed = true := by
  cases hE : st.slots.isEmpty with
  | true =>
      rw [emitState_empty alive act hE] at hp
      simp at hp
  | false =>
      rw [emitState_snd_of_ne alive act hE] at hp
      exact emitLoop_trace_entry_single alive act (preState st).slots (preState st)
        false p hp hps

/-- A throwing callback has exactly the effect of a callback that does
nothing: the throw is caught and discarded by the loop. -/
theorem emitLoop_throw_eq_pure (alive : Nat → Bool) {act : Nat → Action} {i : Nat}
    (hact : act i = .throwEx) :
    ∀ (snap : List Nat) (st : SigState) (need : Bool),
      emitLoop alive act snap st need
        = emitLoop alive (fun k => if k = i then .pure else act k) snap st need
  | [], _, _ => rfl
  | j :: rest, st, need => by
      cases h1 : ((st.store j).has_tracked_object &&
        (st.store j).tracked_expired alive) with
      | true =>
          rw [emitLoop_cons_expired alive act rest st need h1,
            emitLoop_cons_expired alive _ rest st need h1]
          exact emitLoop_throw_eq_pure alive hact rest _ true
      | false =>
          cases h2 : (st.store j).is_callable alive with
          | false =>
              rw [emitLoop_cons_skip alive act rest st need h1 h2,
                emitLoop_cons_skip alive _ rest st need h1 h2]
              exact emitLoop_throw_eq_pure alive hact rest st need
          | true =>
              cases h3 : ((st.store j).try_acquire_execution).1 with
              | false =>
                  rw [emitLoop_cons_lost alive act rest st need h1 h2 h3,
                    emitLoop_cons_lost alive _ rest st need h1 h2 h3]
                  exact emitLoop_throw_eq_pure alive hact rest st need
              | true =>
                  have hrun : ∀ s2 : SigState,
                      (runAction (act j) s2).1
                        = (runAction ((fun k => if k = i then Action.pure else act k) j)
                            s2).1 := by
                    intro s2
                    by_cases hji : j = i
                    · subst hji
                      rw [hact]
                      simp [runAction]
                    · simp [hji]
                  cases hss : (st.store j).single_shot with
                  | false =>
                      rw [emitLoop_cons_invoke_multi alive act rest st need h1 h2 hss,
                        emitLoop_cons_invoke_multi alive _ rest st need h1 h2 hss]
                      have h : emitLoop alive act rest
                          ((runAction (act j)
                            (st.updateSlot j (fun _ => st.store j))).1) need
                          = emitLoop alive (fun k => if k = i then Action.pure else act k)
                              rest
                              ((runAction ((fun k => if k = i then Action.pure else act k) j)
                                (st.updateSlot j (fun _ => st.store j))).1) need := by
                        rw [← hrun (st.updateSlot j (fun _ => st.store j))]
                        exact emitLoop_throw_eq_pure alive hact rest _ need
                      exact congrArg (fun o => (o.1, o.2.1,
                        (j, (st.updateSlot j (fun _ => st.store j)).store j) :: o.2.2)) h
                  | true =>
                      cases hex : (st.store j).executed with
                      | true =>
                          rw [try_acquire_of_lose hss hex] at h3
                          cases h3
                      | false =>
                          rw [emitLoop_cons_invoke_single alive act rest st need
                              h1 h2 hss hex,
                            emitLoop_cons_invoke_single alive _ rest st need
                              h1 h2 hss hex]
                          have h : emitLoop alive act rest
                              ((runAction (act j)
                                ((st.updateSlot j
                                  (fun _ => {st.store j with executed := true})).markPending
                                    j)).1) true
                              = emitLoop alive
                                  (fun k => if k = i then Action.pure else act k) rest
                                  ((runAction
                                    ((fun k => if k = i then Action.pure else act k) j)
                                    ((st.updateSlot j
                                      (fun _ => {st.store j with executed := true})).markPending
                                        j)).1) true := by
                            rw [← hrun ((st.updateSlot j
                              (fun _ => {st.store j with executed := true})).markPending j)]
                            exact emitLoop_throw_eq_pure alive hact rest _ true
                          exact congrArg (fun o => (o.1, o.2.1,
                            (j, ((st.updateSlot j
                              (fun _ => {st.store j with executed := true})).markPending
                                j).store j) :: o.2.2)) h

/-- Emission-level version: replacing a throwing callback by one that
does nothing changes neither the final state nor the trace. -/
theorem emitState_throw_eq_pure (alive : Nat → Bool) {act : Nat → Action} {i : Nat}
    (hact : act i = .throwEx) (st : SigState) :
    emitState alive act st
      = emitState alive (fun k => if k = i then .pure else act k) st := by
  cases hE : st.slots.isEmpty with
  | true => rw [emitState_empty alive act hE, emitState_empty alive _ hE]
  | false =>
      simp only [emitState, hE, Bool.false_eq_true, if_false]
      rw [emitLoop_throw_eq_pure alive hact]

/-! ### Benign-environment lifting to whole emissions -/

theorem emitState_store_pres_benign (alive : Nat → Bool) {act : Nat → Action}
    (hb : Benign act) {st : SigState} {i : Nat}
    (ht : (st.store i).tracked = none)
    (hm : i ∉ traceIds (emitState alive act st).2) :
    ((emitState alive act st).1).store i = st.store i := by
  cases hE : st.slots.isEmpty with
  | true => rw [emitState_empty alive act hE]
  | false =>
      rw [emitState_snd_of_ne alive act hE] at hm
      rw [emitState_fst_store_of_ne alive act hE]
      have := emitLoop_store_pres_benign alive hb (preState st).slots (preState st)
        false i (by rw [preState_store]; exact ht) hm
      rw [preState_store] at this
      exact this

theorem emitState_slots_benign (alive : Nat → Bool) {act : Nat → Action}
    (hb : Benign act) {st : SigState} (hE : st.slots.isEmpty = false) :
    ((emitState alive act st).1).slots = (preState st).slots := by
  rw [emitState_fst_slots_of_ne alive act hE]
  exact (emitLoop_frame_benign alive hb (preState st).slots (preState st) false).1

theorem preState_mem {st : SigState} {i : Nat}
    (hp : (st.store i).pending_removal = false) (hm : i ∈ st.slots) :
    i ∈ (preState st).slots := by
  unfold preState
  split
  · refine ((sortSlots_perm _ _).mem_iff).mpr ?_
    refine List.mem_filter.mpr ⟨hm, ?_⟩
    simp [hp]
  · exact hm

theorem preState_nodup {st : SigState} (hnd : st.slots.Nodup) :
    (preState st).slots.Nodup := by
  unfold preState
  split
  · exact ((sortSlots_perm _ _).nodup_iff).mpr (hnd.filter _)
  · exact hnd

/-! ### Exactly-once invocation of a ready single-shot slot -/

theorem count_cons_self_eq_one {i : Nat} {T : List Nat} (h : i ∉ T) :
    (i :: T).count i = 1 := by
  simp [List.count_cons, List.count_eq_zero_of_not_mem h]

theorem count_cons_ne_eq {i j : Nat} (h : j ≠ i) (T : List Nat) :
    (j :: T).count i = T.count i := by
  simp [List.count_cons, h]

/-- A listed, unblocked, unflagged, untracked single-shot slot whose
`executed` flag is clear is invoked exactly once by a loop pass over a
duplicate-free snapshot, provided no callback touches the signal. -/
theorem emitLoop_invoke_once (alive : Nat → Bool) {act : Nat → Action}
    (hb : Benign act) :
    ∀ (snap : List Nat) (st : SigState) (need : Bool) (i : Nat),
      i ∈ snap → snap.Nodup →
      (st.store i).blocked = false → (st.store i).pending_removal = false →
      (st.store i).executed = false → (st.store i).single_shot = true →
      (st.store i).tracked = none →
      (traceIds (emitLoop alive act snap st need).2.2).count i = 1
  | [], _, _, _, hm, _, _, _, _, _, _ => by cases hm
  | j :: rest, st, need, i, hm, hnd, hbl, hpe, hex, hss, htr => by
      rcases List.nodup_cons.mp hnd with ⟨hjr, hnd'⟩
      by_cases hij : i = j
      · subst hij
        have h1 : ((st.store i).has_tracked_object &&
            (st.store i).tracked_expired alive) = false := by
          simp [Slot.has_tracked_object, htr]
        have h2 : (st.store i).is_callable alive = true := by
          rw [Slot.is_callable, hbl, hpe]
          simp [Slot.has_tracked_object, htr]
        rw [emitLoop_cons_invoke_single alive act rest st need h1 h2 hss hex]
        have hnm : i ∉ traceIds (emitLoop alive act rest
            ((runAction (act i)
              ((st.updateSlot i
                (fun _ => {st.store i with executed := true})).markPending
                  i)).1) true).2.2 := by
          refine emitLoop_single_not_mem alive act rest _ true i ?_ ?_
          · rw [runAction_store_single, markPending_store_single, updateSlot_store]
            simp [hss]
          · rw [runAction_store_executed, markPending_store_executed, updateSlot_store]
            simp
        exact count_cons_self_eq_one hnm
      · have hm' : i ∈ rest := by
          rcases List.mem_cons.mp hm with h | h
          · exact absurd h hij
          · exact h
        cases h1 : ((st.store j).has_tracked_object &&
          (st.store j).tracked_expired alive) with
        | true =>
            rw [emitLoop_cons_expired alive act rest st need h1]
            refine emitLoop_invoke_once alive hb rest _ true i hm' hnd' ?_ ?_ ?_ ?_ ?_
            · rw [markPending_store_blocked]; exact hbl
            · rw [markPending_store, if_neg hij]; exact hpe
            · rw [markPending_store_executed]; exact hex
            · rw [markPending_store_single]; exact hss
            · rw [markPending_store_tracked]; exact htr
        | false =>
            cases h2 : (st.store j).is_callable alive with
            | false =>
                rw [emitLoop_cons_skip alive act rest st need h1 h2]
                exact emitLoop_invoke_once alive hb rest st need i hm' hnd'
                  hbl hpe hex hss htr
            | true =>
                cases h3 : ((st.store j).try_acquire_execution).1 with
                | false =>
                    rw [emitLoop_cons_lost alive act rest st need h1 h2 h3]
                    exact emitLoop_invoke_once alive hb rest st need i hm' hnd'
                      hbl hpe hex hss htr
                | true =>
                    cases hss' : (st.store j).single_shot with
                    | false =>
                        rw [emitLoop_cons_invoke_multi alive act rest st need h1 h2 hss']
                        have hstep : (((runAction (act j)
                            (st.updateSlot j (fun _ => st.store j))).1).store i)
                            = st.store i := by
                          rw [runAction_benign_state _ (hb j), updateSlot_self_store]
                        refine (count_cons_ne_eq (Ne.symm hij) _).trans ?_
                        refine emitLoop_invoke_once alive hb rest _ need i hm' hnd'
                          ?_ ?_ ?_ ?_ ?_ <;> rw [hstep]
                        · exact hbl
                        · exact hpe
                        · exact hex
                        · exact hss
                        · exact htr
                    | true =>
                        cases hex' : (st.store j).executed with
                        | true =>
                            rw [try_acquire_of_lose hss' hex'] at h3
                            cases h3
                        | false =>
                            rw [emitLoop_cons_invoke_single alive act rest st need
                              h1 h2 hss' hex']
                            have hstep : (((runAction (act j)
                                ((st.updateSlot j
                                  (fun _ => {st.store j with executed := true})).markPending
                                    j)).1).store i) = st.store i := by
                              rw [runAction_benign_state _ (hb j),
                                invoke_single_store_ne st _ hij]
                            refine (count_cons_ne_eq (Ne.symm hij) _).trans ?_
                            refine emitLoop_invoke_once alive hb rest _ true i hm' hnd'
                              ?_ ?_ ?_ ?_ ?_ <;> rw [hstep]
                            · exact hbl
                            · exact hpe
                            · exact hex
                            · exact hss
                            · exact htr

/-- A ready single-shot slot is invoked exactly once by an emission
whose callbacks do not touch the signal. -/
theorem emitState_invoke_once (alive : Nat → Bool) {act : Nat → Action}
    (hb : Benign act) {st : SigState} {i : Nat}
    (hm : i ∈ st.slots) (hnd : st.slots.Nodup)
    (hbl : (st.store i).blocked = false)
    (hpe : (st.store i).pending_removal = false)
    (hex : (st.store i).executed = false)
    (hss : (st.store i).single_shot = true)
    (htr : (st.store i).tracked = none) :
    (traceIds (emitState alive act st).2).count i = 1 := by
  have hE : st.slots.isEmpty = false := by
    cases hsl : st.slots with
    | nil => rw [hsl] at hm; cases hm
    | cons a l => rfl
  rw [emitState_snd_of_ne alive act hE]
  refine emitLoop_invoke_once alive hb (preState st).slots (preState st) false i
    (preState_mem hpe hm) (preState_nodup hnd) ?_ ?_ ?_ ?_ ?_ <;>
    rw [preState_store]
  · exact hbl
  · exact hpe
  · exact hex
  · exact hss
  · exact htr

/-! ### The clean-implies-sorted invariant

`SortedInv` (dirty clear → list sorted by descending priority) holds
for a fresh signal and is preserved by every operation of the model:
the only writers of `dirty_ = false` are the emission prologue (which
has just sorted) and `disconnect_all` (which empties the list), and no
operation ever changes a record's priority. -/

theorem markPending_store_priority (st : SigState) (j i : Nat) :
    ((st.markPending j).store i).priority = (st.store i).priority := by
  rw [markPending_store]; split <;> rfl

theorem runAction_store_priority (a : Action) (st : SigState) (i : Nat) :
    (((runAction a st).1).store i).priority = (st.store i).priority := by
  rcases runAction_store_cases a st i with hc | hc <;> rw [hc]

/-- `prioGE` only reads priorities, so `Pairwise` transports along any
store change that keeps them. -/
theorem pairwise_prioGE_congr {s1 s2 : Nat → Slot} {l : List Nat}
    (h : ∀ i, (s2 i).priority = (s1 i).priority)
    (hp : l.Pairwise (prioGE s1)) : l.Pairwise (prioGE s2) := by
  refine hp.imp ?_
  intro a b hab
  unfold prioGE at hab ⊢
  rw [h a, h b]
  exact hab

theorem runAction_sortedInv (a : Action) (st : SigState)
    (h : SortedInv st) : SortedInv (runAction a st).1 := by
  cases a with
  | pure => exact h
  | throwEx => exact h
  | disconnectConn k =>
      intro hd
      cases hd
  | disconnectAllAct =>
      intro _
      exact List.Pairwise.nil

theorem emitLoop_sortedInv (alive : Nat → Bool) (act : Nat → Action) :
    ∀ (snap : List Nat) (st : SigState) (need : Bool),
      SortedInv st → SortedInv (emitLoop alive act snap st need).1
  | [], _, _, h => h
  | j :: rest, st, need, h => by
      cases h1 : ((st.store j).has_tracked_object &&
        (st.store j).tracked_expired alive) with
      | true =>
          rw [emitLoop_cons_expired alive act rest st need h1]
          refine emitLoop_sortedInv alive act rest _ true ?_
          intro hd
          rw [markPending_dirty] at hd
          exact pairwise_prioGE_congr (markPending_store_priority st j) (h hd)
      | false =>
          cases h2 : (st.store j).is_callable alive with
          | false =>
              rw [emitLoop_cons_skip alive act rest st need h1 h2]
              exact emitLoop_sortedInv alive act rest st need h
          | true =>
              cases h3 : ((st.store j).try_acquire_execution).1 with
              | false =>
                  rw [emitLoop_cons_lost alive act rest st need h1 h2 h3]
                  exact emitLoop_sortedInv alive act rest st need h
              | true =>
                  cases hss : (st.store j).single_shot with
                  | false =>
                      rw [emitLoop_cons_invoke_multi alive act rest st need h1 h2 hss]
                      refine emitLoop_sortedInv alive act rest _ need ?_
                      refine runAction_sortedInv _ _ ?_
                      intro hd
                      rw [updateSlot_dirty] at hd
                      exact pairwise_prioGE_congr
                        (fun i => by rw [updateSlot_self_store]) (h hd)
                  | true =>
                      cases hex : (st.store j).executed with
                      | true =>
                          rw [try_acquire_of_lose hss hex] at h3
                          cases h3
                      | false =>
                          rw [emitLoop_cons_invoke_single alive act rest st need
                            h1 h2 hss hex]
                          refine emitLoop_sortedInv alive act rest _ true ?_
                          refine runAction_sortedInv _ _ ?_
                          intro hd
                          rw [markPending_dirty, updateSlot_dirty] at hd
                          refine pairwise_prioGE_congr ?_ (h hd)
                          intro i
                          by_cases hij : i = j
                          · subst hij
                            rw [markPending_store, if_pos rfl, updateSlot_store,
                              if_pos rfl]
                          · rw [invoke_single_store_ne st _ hij]

/-- A whole emission preserves the clean-implies-sorted invariant. -/
theorem emitState_sortedInv (alive : Nat → Bool) (act : Nat → Action)
    (st : SigState) (h : SortedInv st) :
    SortedInv (emitState alive act st).1 := by
  cases hE : st.slots.isEmpty with
  | true =>
      rw [emitState_empty alive act hE]
      exact h
  | false =>
      have hA : SortedInv (preState st) := by
        intro _
        unfold preState
        split
        · exact sortSlots_sorted _ _
        · next h2 => exact h (Bool.eq_false_iff.mpr h2)
      have hOut := emitLoop_sortedInv alive act (preState st).slots (preState st)
        false hA
      intro hd
      rw [emitState_fst_dirty_of_ne alive act hE] at hd
      rw [emitState_fst_store_of_ne alive act hE,
        emitState_fst_slots_of_ne alive act hE]
      cases hneed : (emitLoop alive act (preState st).slots (preState st) false).2.1
        with
      | true =>
          rw [hneed] at hd
          simp at hd
      | false =>
          rw [hneed] at hd
          simp only [Bool.false_eq_true, if_false] at hd
          exact hOut hd

theorem sortedInv_initState : SortedInv initState :=
  fun _ => List.Pairwise.nil

theorem sortedInv_connect_impl (st : SigState) (i : Nat) (p : Int) (ss : Bool)
    (t : Option Nat) : SortedInv (st.connect_impl i p ss t) := by
  intro hd
  cases hd

theorem sortedInv_disconnect_slot (st : SigState) (i : Nat) :
    SortedInv (st.disconnect_slot i) := by
  intro hd
  cases hd

theorem sortedInv_disconnect_all (st : SigState) :
    SortedInv st.disconnect_all :=
  fun _ => List.Pairwise.nil

theorem sortedInv_disconnect_tag (st : SigState) (name : String)
    (h : SortedInv st) : SortedInv (st.disconnect_tag name).1 := by
  cases hf : st.tags.find? (fun t => t.2 == name) with
  | none =>
      have he : st.disconnect_tag name = (st, false) := by
        simp only [SigState.disconnect_tag, hf]
      rw [he]
      exact h
  | some tg =>
      intro hd
      have he : (st.disconnect_tag name).1.dirty = true := by
        simp only [SigState.disconnect_tag, hf]
      rw [he] at hd
      cases hd

theorem sortedInv_conn_block (st : SigState) (c : Option Nat) (b : Bool)
    (h : SortedInv st) : SortedInv (conn_block st c b) := by
  cases c with
  | none => exact h
  | some i =>
      intro hd
      refine pairwise_prioGE_congr ?_ (h hd)
      intro k
      show ((st.updateSlot i (fun s => {s with blocked := b})).store k).priority
        = (st.store k).priority
      rw [updateSlot_store]
      split <;> rfl

theorem sortedInv_get_or_create_tag (st : SigState) (name : String) (f : Nat)
    (h : SortedInv st) : SortedInv (st.get_or_create_tag name f).1 := by
  cases hf : st.tags.find? (fun t => t.2 == name) with
  | some tg =>
      have he : st.get_or_create_tag name f = (st, tg.1) := by
        simp only [SigState.get_or_create_tag, hf]
      rw [he]
      exact h
  | none =>
      intro hd
      have he1 : (st.get_or_create_tag name f).1.dirty = st.dirty := by
        simp only [SigState.get_or_create_tag, hf]
      have he2 : (st.get_or_create_tag name f).1.slots = st.slots := by
        simp only [SigState.get_or_create_tag, hf]
      have he3 : (st.get_or_create_tag name f).1.store = st.store := by
        simp only [SigState.get_or_create_tag, hf]
      rw [he1] at hd
      rw [he2, he3]
      exact h hd

/-! ### The claims -/

/-- C1: In every emission, any two invoked slots are invoked in
descending priority order regardless of registration order, and two
invoked slots of equal priority are invoked in their registration
(list) order — the cleanup pass performs a stable sort by descending
priority. When the cleanup pass does not run (dirty flag clear) the
list is already sorted: that is the program invariant `SortedInv`,
established at construction and preserved by every operation
(`sortedInv_initState`, `sortedInv_connect_impl`,
`sortedInv_disconnect_slot`, `sortedInv_disconnect_tag`,
`sortedInv_disconnect_all`, `sortedInv_conn_block`,
`sortedInv_get_or_create_tag`, `emitState_sortedInv`), so the
hypothesis below covers every reachable state, hence every emission. -/
theorem C1_priority_order (alive : Nat → Bool) (act : Nat → Action)
    (st : SigState)
    (hd : st.dirty = true ∨ st.slots.Pairwise (prioGE st.store))
    (hnd : st.slots.Nodup) :
    (traceIds (emitState alive act st).2).Pairwise
      (fun a b => (st.store b).priority ≤ (st.store a).priority) ∧
    (∀ a b : Nat, (st.store a).priority = (st.store b).priority →
      List.Sublist [a, b] st.slots →
      a ∈ traceIds (emitState alive act st).2 →
      b ∈ traceIds (emitState alive act st).2 →
      List.Sublist [a, b] (traceIds (emitState alive act st).2)) := by
  cases hE : st.slots.isEmpty with
  | true =>
      rw [emitState_empty alive act hE]
      constructor
      · simp [traceIds]
      · intro a b _ _ ha _
        simp [traceIds] at ha
  | false =>
      rw [emitState_snd_of_ne alive act hE]
      have hsub := emitLoop_trace_sublist alive act (preState st).slots
        (preState st) false
      have hNodupSnap : (preState st).slots.Nodup := preState_nodup hnd
      have key : ((preState st).slots.Pairwise (prioGE st.store)) ∧
          (∀ a b : Nat, (st.store a).priority = (st.store b).priority →
            List.Sublist [a, b] st.slots → a ∈ (preState st).slots →
            b ∈ (preState st).slots →
            List.Sublist [a, b] (preState st).slots) := by
        cases hdc : st.dirty with
        | true =>
            have hsnap : (preState st).slots
                = sortSlots (st.cleanup_slots_locked).store
                    (st.cleanup_slots_locked).slots :=
              preState_slots_of_dirty hdc
            constructor
            · rw [hsnap]
              exact sortSlots_sorted st.store _
            · intro a b hpr hab ha hb
              rw [hsnap] at ha hb ⊢
              have haC : a ∈ (st.cleanup_slots_locked).slots :=
                ((sortSlots_perm _ _).mem_iff).mp ha
              have hbC : b ∈ (st.cleanup_slots_locked).slots :=
                ((sortSlots_perm _ _).mem_iff).mp hb
              have hCsub : List.Sublist (st.cleanup_slots_locked).slots st.slots :=
                List.filter_sublist st.slots
              exact sortSlots_pair (le_of_eq hpr.symm)
                (pair_sublist_transfer hCsub hnd hab haC hbC)
        | false =>
            have hsnap : (preState st).slots = st.slots :=
              preState_slots_of_clean hdc
            have hsorted : st.slots.Pairwise (prioGE st.store) := by
              rcases hd with hd | hd
              · rw [hdc] at hd
                cases hd
              · exact hd
            constructor
            · rw [hsnap]
              exact hsorted
            · intro a b _ hab _ _
              rw [hsnap]
              exact hab
      constructor
      · exact List.Pairwise.sublist hsub key.1
      · intro a b hpr hab ha hb
        have habSnap := key.2 a b hpr hab (hsub.subset ha) (hsub.subset hb)
        exact pair_sublist_transfer hsub hNodupSnap habSnap ha hb

theorem C1_priority_order_witness :
    exampleSt.dirty = true ∧ exampleSt.slots.Nodup ∧
    (traceIds (emitState aliveAll actPure exampleSt).2).Pairwise
      (fun a b => (exampleSt.store b).priority ≤ (exampleSt.store a).priority) ∧
    ((emitState aliveAll actPure exampleSt).1).dirty = false ∧
    (traceIds (emitState aliveAll actPure
      (emitState aliveAll actPure exampleSt).1).2).Pairwise
      (fun a b => (((emitState aliveAll actPure exampleSt).1).store b).priority
        ≤ (((emitState aliveAll actPure exampleSt).1).store a).priority) :=
  ⟨rfl, by decide,
    (C1_priority_order aliveAll actPure exampleSt (Or.inl rfl) (by decide)).1,
    by decide,
    (C1_priority_order aliveAll actPure (emitState aliveAll actPure exampleSt).1
      (Or.inr (by decide)) (by decide)).1⟩

/-- C2: `try_acquire_execution` always succeeds without state change
for non-single-shot slots; for single-shot slots it CAS-transitions
`executed` from `false` to `true` exactly for the winning call and
fails (no state change) for every later call; every invocation of a
single-shot slot happens on a record already flagged `pending_removal`
and `executed`; and across any sequence of emissions a single-shot
slot's callback is invoked at most once. -/
theorem C2_single_shot_once (alive : Nat → Bool) (act : Nat → Action)
    (st : SigState) (i : Nat)
    (envs : List ((Nat → Bool) × (Nat → Action))) :
    (∀ s : Slot, s.single_shot = false → s.try_acquire_execution = (true, s)) ∧
    (∀ s : Slot, s.single_shot = true → s.executed = false →
      s.try_acquire_execution = (true, {s with executed := true})) ∧
    (∀ s : Slot, s.single_shot = true → s.executed = true →
      s.try_acquire_execution = (false, s)) ∧
    (∀ p ∈ (emitState alive act st).2, p.2.single_shot = true →
      p.2.pending_removal = true ∧ p.2.executed = true) ∧
    ((st.store i).single_shot = true → (st.store i).executed = false →
      (((runSeq envs st).2).map (fun tr => (traceIds tr).count i)).sum ≤ 1) := by
  refine ⟨?_, ?_, ?_, ?_, ?_⟩
  · exact fun _ h => try_acquire_of_multi h
  · exact fun _ h he => try_acquire_of_win h he
  · exact fun _ h he => try_acquire_of_lose h he
  · exact fun _ hp hps => emitState_trace_entry_single alive act hp hps
  · exact fun hs he => runSeq_single_le_one i envs st hs he

theorem C2_single_shot_once_witness :
    (exampleOnce.store 1).single_shot = true ∧
    (exampleOnce.store 1).executed = false ∧
    (((runSeq [(aliveAll, actPure), (aliveAll, actPure)] exampleOnce).2).map
      (fun tr => (traceIds tr).count 1)).sum ≤ 1 :=
  ⟨rfl, rfl,
    (C2_single_shot_once aliveAll actPure exampleOnce 1
      [(aliveAll, actPure), (aliveAll, actPure)]).2.2.2.2 rfl rfl⟩

/-- C3: an exception thrown by a slot callback is caught and discarded
at the emission boundary: an emission in which slot `i`'s callback
throws is indistinguishable (same final state, same invocation trace)
from one in which that callback does nothing, so it neither propagates
to the caller nor stops any other slot of the snapshot; concretely,
with slots at priorities 100, 50, 0 and the middle one throwing, all
three run. -/
theorem C3_exceptions_caught (alive : Nat → Bool) (act : Nat → Action)
    (st : SigState) (i : Nat) :
    (act i = .throwEx →
      emitState alive act st
        = emitState alive (fun k => if k = i then .pure else act k) st) ∧
    traceIds (emitState aliveAll actThrowMid exampleSt).2 = [2, 3, 1] := by
  constructor
  · exact fun h => emitState_throw_eq_pure alive h st
  · decide

theorem C3_exceptions_caught_witness :
    actThrowMid 3 = .throwEx ∧
    emitState aliveAll actThrowMid exampleSt
      = emitState aliveAll
          (fun k => if k = 3 then .pure else actThrowMid k) exampleSt :=
  ⟨rfl, (C3_exceptions_caught aliveAll actThrowMid exampleSt 3).1 rfl⟩

/-- C4: disconnecting a live connection handle makes `is_connected`
false; the disconnected slot is not invoked by any emission started
after the disconnect; and a slot whose callback disconnects its own
connection is invoked at most once in total across any sequence of
emissions. -/
theorem C4_disconnect_stops_invocation (st : SigState) (i : Nat)
    (envs : List ((Nat → Bool) × (Nat → Action))) :
    conn_is_connected (conn_disconnect st (some i)) (some i) = false ∧
    (∀ tr ∈ (runSeq envs (conn_disconnect st (some i))).2, i ∉ traceIds tr) ∧
    ((∀ e ∈ envs, e.2 i = .disconnectConn i) →
      (((runSeq envs st).2).map (fun tr => (traceIds tr).count i)).sum ≤ 1) := by
  refine ⟨?_, ?_, ?_⟩
  · simp [conn_is_connected, conn_disconnect, SigState.disconnect_slot,
      markPending_store]
  · have hp : ((conn_disconnect st (some i)).store i).pending_removal = true := by
      simp [conn_disconnect, SigState.disconnect_slot, markPending_store]
    exact (runSeq_pending i envs _ hp).1
  · exact fun h => runSeq_selfdisc i envs st h

theorem C4_disconnect_stops_invocation_witness :
    (∀ e ∈ [((aliveAll, actSelfDisc) : (Nat → Bool) × (Nat → Action))],
      e.2 1 = .disconnectConn 1) ∧
    (((runSeq [(aliveAll, actSelfDisc)] exampleOnce).2).map
      (fun tr => (traceIds tr).count 1)).sum ≤ 1 := by
  have h : ∀ e ∈ [((aliveAll, actSelfDisc) : (Nat → Bool) × (Nat → Action))],
      e.2 1 = .disconnectConn 1 := by
    intro e he
    rw [List.mem_singleton] at he
    subst he
    rfl
  exact ⟨h, (C4_disconnect_stops_invocation exampleOnce 1 _).2.2 h⟩

/-- C5 counterexample: the claim says the dirty flag "is cleared only
immediately after a cleanup+sort pass inside an emission (no other
operation clears the dirty flag)", but `disconnect_all` also clears it
(`impl_->dirty_ = false;` at the end of `signal_t::disconnect_all`).
Starting from a fresh signal, one `connect` makes the state dirty, and
`disconnect_all` — which is not an emission — clears the flag. -/
theorem C5_counterexample :
    (initState.connect_impl 1 0 false none).dirty = true ∧
      ((initState.connect_impl 1 0 false none).disconnect_all).dirty = false :=
  ⟨rfl, rfl⟩

/-- C5 (amended): the dirty flag is set by adding a slot
(`connect_impl`), by marking a slot for removal through a handle
(`disconnect_slot`) or by tag disconnect when the tag exists, and by an
emission that flags slots (e.g. one that fires a single-shot slot);
`block`/`unblock` and tag lookup never change it; it is cleared by the
cleanup+sort pass inside an emission (observable when the emission
itself flags nothing) and also by `disconnect_all`, which empties the
slot list and the tag registry. -/
theorem C5_dirty_flag_amended (alive : Nat → Bool) (act : Nat → Action)
    (st : SigState) (i f : Nat) (p : Int) (ss : Bool) (t : Option Nat)
    (c : Option Nat) (b : Bool) (name : String) :
    (st.connect_impl i p ss t).dirty = true ∧
    (st.disconnect_slot i).dirty = true ∧
    ((st.disconnect_tag name).1).dirty = (st.dirty || (st.disconnect_tag name).2) ∧
    (conn_block st c b).dirty = st.dirty ∧
    ((st.get_or_create_tag name f).1).dirty = st.dirty ∧
    (st.disconnect_all).dirty = false ∧
    (∀ q ∈ (emitState alive act st).2, q.2.single_shot = true →
      ((emitState alive act st).1).dirty = true) ∧
    (st.dirty = true → st.slots.isEmpty = false → Benign act →
      (∀ j ∈ st.slots, (st.store j).tracked = none ∧
        (st.store j).single_shot = false) →
      ((emitState alive act st).1).dirty = false) := by
  refine ⟨rfl, rfl, ?_, ?_, ?_, rfl, ?_, ?_⟩
  · cases h : st.tags.find? (fun u => u.2 == name) with
    | none => simp [SigState.disconnect_tag, h]
    | some tg => simp [SigState.disconnect_tag, h]
  · cases c with
    | none => rfl
    | some k => rfl
  · cases h : st.tags.find? (fun u => u.2 == name) with
    | none => simp [SigState.get_or_create_tag, h]
    | some tg => simp [SigState.get_or_create_tag, h]
  · intro q hq hqs
    cases hE : st.slots.isEmpty with
    | true =>
        rw [emitState_empty alive act hE] at hq
        simp at hq
    | false =>
        rw [emitState_snd_of_ne alive act hE] at hq
        have hn := emitLoop_single_need alive act (preState st).slots (preState st)
          false q hq hqs
        rw [emitState_fst_dirty_of_ne alive act hE, hn]
        simp
  · intro hd hE hb hprop
    have hmem : ∀ j ∈ (preState st).slots, j ∈ st.slots := by
      intro j hj
      rw [preState_slots_of_dirty hd] at hj
      exact (List.mem_filter.mp (((sortSlots_perm _ _).mem_iff).mp hj)).1
    have hneed : (emitLoop alive act (preState st).slots (preState st) false).2.1
        = false := by
      refine emitLoop_need_pres alive act (preState st).slots (preState st) false ?_
      intro j hj
      constructor
      · rw [preState_store]
        exact (hprop j (hmem j hj)).1
      · rw [preState_store]
        exact (hprop j (hmem j hj)).2
    rw [emitState_fst_dirty_of_ne alive act hE, hneed]
    simp only [Bool.false_eq_true, if_false]
    rw [(emitLoop_frame_benign alive hb (preState st).slots (preState st) false).2.2,
      preState_dirty]

theorem C5_dirty_flag_amended_witness :
    exampleSt.dirty = true ∧ exampleSt.slots.isEmpty = false ∧
      ((emitState aliveAll actPure exampleSt).1).dirty = false := by
  refine ⟨rfl, rfl, ?_⟩
  refine (C5_dirty_flag_amended aliveAll actPure exampleSt 0 0 0 false none
    none false "x").2.2.2.2.2.2.2 rfl rfl (fun k => Or.inl rfl) ?_
  intro j hj
  constructor
  · fin_cases hj <;> rfl
  · fin_cases hj <;> rfl

/-- Membership in `eraseP (·.snd == name)` when names are unique and
some element carries `name`: exactly the elements with a different
name survive. -/
theorem eraseP_name_mem {l : List (Nat × String)} {name : String}
    (hnd : (l.map Prod.snd).Nodup) (hex : ∃ u ∈ l, u.2 = name)
    (t : Nat × String) :
    t ∈ l.eraseP (fun x => x.2 == name) ↔ t ∈ l ∧ t.2 ≠ name := by
  induction l with
  | nil =>
      rcases hex with ⟨u, hu, _⟩
      cases hu
  | cons u l' ih =>
      rw [List.map_cons, List.nodup_cons] at hnd
      cases pu : (u.2 == name) with
      | true =>
          have hu2 : u.2 = name := beq_iff_eq.mp pu
          rw [@List.eraseP_cons_of_pos _ u l' (fun x => x.2 == name) pu]
          constructor
          · intro ht
            refine ⟨List.mem_cons_of_mem u ht, ?_⟩
            intro h2
            have hmm : t.snd ∈ l'.map Prod.snd := List.mem_map_of_mem Prod.snd ht
            rw [h2, ← hu2] at hmm
            exact hnd.1 hmm
          · rintro ⟨ht, hne⟩
            rcases List.mem_cons.mp ht with rfl | ht'
            · exact absurd hu2 hne
            · exact ht'
      | false =>
          rw [@List.eraseP_cons_of_neg _ u l' (fun x => x.2 == name)
            (by show ¬(u.2 == name) = true; rw [pu]; exact Bool.false_ne_true)]
          have hune : u.2 ≠ name := by
            intro h
            rw [← beq_iff_eq (a := u.2) (b := name)] at h
            rw [h] at pu
            cases pu
          have hex' : ∃ v ∈ l', v.2 = name := by
            rcases hex with ⟨v, hv, hv2⟩
            rcases List.mem_cons.mp hv with rfl | hv'
            · exact absurd hv2 hune
            · exact ⟨v, hv', hv2⟩
          constructor
          · intro ht
            rcases List.mem_cons.mp ht with rfl | ht'
            · exact ⟨List.mem_cons_self t l', hune⟩
            · have hh := (ih hnd.2 hex').mp ht'
              exact ⟨List.mem_cons_of_mem u hh.1, hh.2⟩
          · rintro ⟨ht, hne⟩
            rcases List.mem_cons.mp ht with rfl | ht'
            · exact List.mem_cons_self t _
            · exact List.mem_cons_of_mem u ((ih hnd.2 hex').mpr ⟨ht', hne⟩)

/-- C6: `disconnect(tag_name)` returns true iff a tag with that name
is registered; on success it removes exactly that tag from the
registry (under the invariant that tag names are unique), marks for
removal exactly the listed slots whose tracked reference resolves to
that tag object, leaves every other slot record untouched, and keeps
the slot list itself; on failure the whole state is unchanged. -/
theorem C6_tag_disconnect (st : SigState) (name : String) :
    ((st.disconnect_tag name).2 = true ↔ ∃ t ∈ st.tags, t.2 = name) ∧
    (st.tags.find? (fun t => t.2 == name) = none →
      st.disconnect_tag name = (st, false)) ∧
    (∀ tg, st.tags.find? (fun t => t.2 == name) = some tg →
      ((st.disconnect_tag name).1.slots = st.slots ∧
        (st.disconnect_tag name).1.dirty = true) ∧
      ((st.tags.map Prod.snd).Nodup →
        ∀ t, t ∈ (st.disconnect_tag name).1.tags ↔ t ∈ st.tags ∧ t.2 ≠ name) ∧
      (∀ j ∈ st.slots, (st.store j).tracked = some tg.1 →
        ((st.disconnect_tag name).1.store j).pending_removal = true) ∧
      (∀ j : Nat, j ∉ st.slots ∨ (st.store j).tracked ≠ some tg.1 →
        (st.disconnect_tag name).1.store j = st.store j)) := by
  refine ⟨?_, ?_, ?_⟩
  · cases h : st.tags.find? (fun t => t.2 == name) with
    | none =>
        simp only [SigState.disconnect_tag, h]
        constructor
        · intro hfalse
          cases hfalse
        · rintro ⟨t, ht, hname⟩
          have := List.find?_eq_none.mp h t ht
          rw [beq_iff_eq] at this
          exact absurd hname this
    | some tg =>
        have hpred := List.find?_some h
        constructor
        · intro _
          exact ⟨tg, List.mem_of_find?_eq_some h, beq_iff_eq.mp hpred⟩
        · intro _
          simp [SigState.disconnect_tag, h]
  · intro h
    simp only [SigState.disconnect_tag, h]
  · intro tg h
    refine ⟨⟨?_, ?_⟩, ?_, ?_, ?_⟩
    · simp only [SigState.disconnect_tag, h]
    · simp only [SigState.disconnect_tag, h]
    · intro hnd t
      have hpred := List.find?_some h
      have hex : ∃ u ∈ st.tags, u.2 = name :=
        ⟨tg, List.mem_of_find?_eq_some h, beq_iff_eq.mp hpred⟩
      have htags : (st.disconnect_tag name).1.tags
          = st.tags.eraseP (fun x => x.2 == name) := by
        simp only [SigState.disconnect_tag, h]
      rw [htags]
      exact eraseP_name_mem hnd hex t
    · intro j hj htrk
      simp only [SigState.disconnect_tag, h]
      simp [hj, htrk]
    · intro j hcase
      simp only [SigState.disconnect_tag, h]
      rcases hcase with hc | hc
      · simp [hc]
      · simp [hc]

theorem C6_tag_disconnect_witness :
    exampleTagged.tags.find? (fun t => t.2 == "a") = some (10, "a") ∧
    (exampleTagged.disconnect_tag "a").2 = true ∧
    ((exampleTagged.disconnect_tag "a").1.store 1).pending_removal = true ∧
    (exampleTagged.disconnect_tag "a").1.store 2 = exampleTagged.store 2 := by
  refine ⟨by decide, ?_, ?_, ?_⟩
  · exact ((C6_tag_disconnect exampleTagged "a").1).mpr
      ⟨(10, "a"), by decide, rfl⟩
  · exact ((C6_tag_disconnect exampleTagged "a").2.2 (10, "a")
      (by decide)).2.2.1 1 (by decide) (by decide)
  · exact ((C6_tag_disconnect exampleTagged "a").2.2 (10, "a")
      (by decide)).2.2.2 2 (Or.inr (by decide))

/-- C7: a member-function connect with a null raw pointer or an empty
shared owner registers nothing (the state, hence `slot_count`, is
unchanged) and returns the inert handle, on which `is_connected` is
false and `disconnect`/`block` are no-ops. -/
theorem C7_null_owner_connect (st st' : SigState) (f : Nat) (p : Int)
    (b : Bool) :
    connect_shared st none f p = (st, none) ∧
    connect_raw st none f p = (st, none) ∧
    (connect_shared st none f p).1.slot_count = st.slot_count ∧
    (connect_raw st none f p).1.slot_count = st.slot_count ∧
    conn_is_connected st' none = false ∧
    conn_disconnect st' none = st' ∧
    conn_block st' none b = st' :=
  ⟨rfl, rfl, rfl, rfl, rfl, rfl, rfl⟩

/-- C8: after a move, the source signal is invalid (`valid()` false)
and empty, and both emission and `disconnect_all` on it are no-ops; the
destination holds exactly the shared state the source had, so its slot
count and emissions coincide with what the source would have had. -/
theorem C8_move_semantics (alive : Nat → Bool) (act : Nat → Action)
    (g : Option SigState) :
    sig_valid (moveSignal g).1 = false ∧
    sig_empty (moveSignal g).1 = true ∧
    sig_emit alive act (moveSignal g).1 = ((moveSignal g).1, []) ∧
    sig_disconnect_all (moveSignal g).1 = (moveSignal g).1 ∧
    (moveSignal g).2 = g ∧
    sig_slot_count (moveSignal g).2 = sig_slot_count g ∧
    sig_emit alive act (moveSignal g).2 = sig_emit alive act g :=
  ⟨rfl, rfl, rfl, rfl, rfl, rfl, rfl⟩

/-- C9: if a slot's callback calls `disconnect_all` on the same signal,
every not-yet-reached slot of that emission's snapshot is skipped:
nothing at all is invoked after that slot in the emission's trace. -/
theorem C9_disconnect_all_skips_rest (alive : Nat → Bool) (act : Nat → Action)
    (st : SigState) (i : Nat) (hact : act i = .disconnectAllAct) :
    ∀ pre post, traceIds (emitState alive act st).2 = pre ++ i :: post →
      post = [] :=
  emitState_disc_all_tail alive hact st

theorem C9_disconnect_all_skips_rest_witness :
    actDiscAllTop 2 = .disconnectAllAct ∧
    traceIds (emitState aliveAll actDiscAllTop exampleSt).2 = [] ++ 2 :: [] ∧
    ([] : List Nat) = [] :=
  ⟨rfl, by decide,
    C9_disconnect_all_skips_rest aliveAll actDiscAllTop exampleSt 2 rfl [] []
      (by decide)⟩

/-- C10: an emission that does not invoke a slot leaves its `executed`
flag unchanged (in particular a blocked single-shot slot is skipped
without consuming its single execution — the callability check comes
before `try_acquire_execution`); a blocked slot is never invoked; and
after unblocking, a later emission invokes the single-shot slot exactly
once. -/
theorem C10_skipped_single_shot_not_consumed (alive alive2 : Nat → Bool)
    (act act2 : Nat → Action) (st : SigState) (i : Nat) :
    (i ∉ traceIds (emitState alive act st).2 →
      (((emitState alive act st).1).store i).executed = (st.store i).executed) ∧
    ((st.store i).blocked = true → i ∉ traceIds (emitState alive act st).2) ∧
    ((st.store i).blocked = true → (st.store i).single_shot = true →
      (st.store i).executed = false → (st.store i).pending_removal = false →
      (st.store i).tracked = none → i ∈ st.slots → st.slots.Nodup →
      Benign act → Benign act2 →
      (traceIds (emitState alive2 act2
        (conn_block (emitState alive act st).1 (some i) false)).2).count i
        = 1) := by
  refine ⟨?_, ?_, ?_⟩
  · exact fun hm => (emitState_not_mem_store alive act hm).1
  · exact fun hbl => emitState_blocked_not_mem alive act hbl
  · intro hbl hss hex hpe htr hm hnd hb hb2
    have hE : st.slots.isEmpty = false := by
      cases hsl : st.slots with
      | nil => rw [hsl] at hm; cases hm
      | cons a l => rfl
    have hnm : i ∉ traceIds (emitState alive act st).2 :=
      emitState_blocked_not_mem alive act hbl
    have hpres : ((emitState alive act st).1).store i = st.store i :=
      emitState_store_pres_benign alive hb htr hnm
    have hslots : ((emitState alive act st).1).slots = (preState st).slots :=
      emitState_slots_benign alive hb hE
    have hm1 : i ∈ ((emitState alive act st).1).slots := by
      rw [hslots]
      exact preState_mem hpe hm
    have hnd1 : ((emitState alive act st).1).slots.Nodup := by
      rw [hslots]
      exact preState_nodup hnd
    have hstore2 : (conn_block (emitState alive act st).1 (some i) false).store i
        = {st.store i with blocked := false} := by
      show ((((emitState alive act st).1)).updateSlot i
        (fun s => {s with blocked := false})).store i
          = {st.store i with blocked := false}
      rw [updateSlot_store, if_pos rfl, hpres]
    refine emitState_invoke_once alive2 hb2 ?_ ?_ ?_ ?_ ?_ ?_ ?_
    · exact hm1
    · exact hnd1
    · rw [hstore2]
    · rw [hstore2]
      exact hpe
    · rw [hstore2]
      exact hex
    · rw [hstore2]
      exact hss
    · rw [hstore2]
      exact htr

theorem C10_skipped_single_shot_not_consumed_witness :
    (exampleBlocked.store 1).blocked = true ∧
    (exampleBlocked.store 1).single_shot = true ∧
    (exampleBlocked.store 1).executed = false ∧
    (traceIds (emitState aliveAll actPure
      (conn_block (emitState aliveAll actPure exampleBlocked).1 (some 1)
        false)).2).count 1 = 1 := by
  refine ⟨by decide, by decide, by decide, ?_⟩
  exact (C10_skipped_single_shot_not_consumed aliveAll aliveAll actPure actPure
    exampleBlocked 1).2.2 (by decide) (by decide) (by decide) (by decide)
    (by decide) (by decide) (by decide) (fun k => Or.inl rfl) (fun k => Or.inl rfl)

end XswlSignals
